import Mathlib

/-!
Verification of the chord-voicing engine of `timber-chord-finder`
(`src/components/WoodGrain.tsx`, the `generateChords` engine and its helpers).

Conventions of the embedding:
* JavaScript numbers are embedded as `Int`; the JS `%` operator (truncated
  remainder, sign of the dividend) is `Int.tmod`.
* A fret assignment ("shape") is a `List Int` of length 6 (`-1` muted,
  `0` open, `n > 0` fretted).
* A JS `Set` built by insertion is embedded as a duplicate-free list kept in
  insertion order (`jsSetInsert`).
* `Array.prototype.sort` with a consistent comparator is (per ES2019) the
  stable sort by `cmp a b ≤ 0`; it is embedded as the stable insertion sort
  `sortStable`, whose output is the unique stable ordering.
-/

namespace ChordEngine

/-- JS `%` on integers: truncated remainder (sign of the dividend). -/
def jsMod (a b : Int) : Int := Int.tmod a b

/-- Minimum of a list of `Int`s, `JS Math.min(...list)`; `d` is returned for `[]`. -/
def minListD (l : List Int) (d : Int) : Int :=
  match l with
  | [] => d
  | x :: xs => xs.foldl min x

/-- Maximum of a list of `Int`s, `JS Math.max(...list)`; `d` is returned for `[]`. -/
def maxListD (l : List Int) (d : Int) : Int :=
  match l with
  | [] => d
  | x :: xs => xs.foldl max x

/-- `SHARP_NAMES` from the source (Unicode accidentals). -/
def SHARP_NAMES : List String :=
  ["C", "C♯", "D", "D♯", "E", "F", "F♯", "G", "G♯", "A", "A♯", "B"]

/-- `getNoteName` (sharp spelling, the default used by the sort comparator). -/
def getNoteName (val : Int) : String := SHARP_NAMES.getD (jsMod val 12).toNat ""

/-- Drop the first occurrence of a character (the effect of JS
`.replace(sym, "")` for the one-character accidental symbols). -/
def removeFirstChar (c : Char) : List Char → List Char
  | [] => []
  | x :: xs => if x = c then xs else x :: removeFirstChar c xs

/-- The root's plain letter name: `getNoteName(rootVal).replace("♯","").replace("♭","")`.
Note names produced by `getNoteName` contain at most one accidental, so
removing the first occurrence of each symbol is exactly the JS `replace`. -/
def rootPlainName (rootVal : Int) : String :=
  ⟨removeFirstChar '♭' (removeFirstChar '♯' (getNoteName rootVal).data)⟩

/-- One CAGED template: a name, the 0-based anchor string, and per-string
offsets relative to the anchor fret (`none` = "don't care" in the source's
comment, treated as *must be muted* by the exact matcher). -/
structure ShapePattern where
  name : String
  anchorString : Nat
  offsets : List (Option Int)
deriving DecidableEq

/-- `CAGED_PATTERNS` in library order E, G, A, C, D. -/
def CAGED_PATTERNS : List ShapePattern :=
  [⟨"E", 0, [some 0, some 2, some 2, some 1, some 0, some 0]⟩,
   ⟨"G", 0, [some 0, some (-1), some (-3), some (-3), some (-3), some 0]⟩,
   ⟨"A", 1, [none, some 0, some 2, some 2, some 2, some 0]⟩,
   ⟨"C", 1, [none, some 0, some (-1), some (-3), some (-2), some (-3)]⟩,
   ⟨"D", 2, [none, none, some 0, some 2, some 3, some 2]⟩]

def STANDARD_TUNING : List Int := [4, 9, 2, 7, 11, 4]

/-- Adjacent-string interval list: `(tuning[i+1] - tuning[i]) % 12`, bumped by
12 when negative (as in the source). -/
def tuningIntervals (tuning : List Int) : List Int :=
  (List.range 5).map (fun i =>
    let diff := jsMod (tuning.getD (i + 1) 0 - tuning.getD i 0) 12
    if diff < 0 then diff + 12 else diff)

/-- The standard-tuning check `(5,5,5,4,5)` shared by both classifiers. -/
def isStandardIntervals (tuning : List Int) : Bool :=
  tuningIntervals tuning == [5, 5, 5, 4, 5]

/-- The exact-match test of `identifyCAGEDShape` for one pattern: the anchor
string is sounded, its pitch class is the root, and every string either equals
`anchorFret + offset` (offset defined) or is muted (offset `null`). -/
def patternMatches (shape : List Int) (rootVal : Int) (tuning : List Int)
    (p : ShapePattern) : Bool :=
  let anchorFret := shape.getD p.anchorString 0
  if anchorFret == -1 then false
  else if jsMod (tuning.getD p.anchorString 0 + anchorFret) 12 != rootVal then false
  else (List.range 6).all (fun s =>
    match p.offsets.getD s none with
    | none => shape.getD s 0 == -1
    | some off => shape.getD s 0 == anchorFret + off)

/-- `identifyCAGEDShape`: first matching pattern's name, `none` when the
tuning's interval pattern is not `(5,5,5,4,5)` or no pattern matches. -/
def identifyCAGEDShape (shape : List Int) (rootVal : Int) (tuning : List Int) :
    Option String :=
  if isStandardIntervals tuning then
    (CAGED_PATTERNS.find? (patternMatches shape rootVal tuning)).map (·.name)
  else none

/-- Score and exact-match count of one pattern against a shape, anchored at
`rootFret` (the fuzzy scorer's inner loop): +2 per exact string match, −1 per
sounded non-matching string, `null`-offset strings skipped. -/
def patternScore (shape : List Int) (rootFret : Int) (p : ShapePattern) :
    Int × Nat :=
  (List.range 6).foldl (fun acc s =>
    match p.offsets.getD s none with
    | none => acc
    | some off =>
      let shapeFret := shape.getD s 0
      if shapeFret == rootFret + off then (acc.1 + 2, acc.2 + 1)
      else if shapeFret != -1 then (acc.1 - 1, acc.2)
      else acc) (0, 0)

/-- `getCAGEDScore`: maximum qualifying (≥ 3 exact matches) pattern score over
all root-bearing strings; 0 when none qualifies or the tuning is nonstandard.
`none` plays the role of the source's `-Infinity` start value. -/
def getCAGEDScore (shape : List Int) (rootVal : Int) (tuning : List Int) : Int :=
  if isStandardIntervals tuning then
    let rootIndices := (List.range 6).filter (fun s =>
      shape.getD s 0 != -1 &&
        jsMod (tuning.getD s 0 + shape.getD s 0) 12 == rootVal)
    let best := rootIndices.foldl (fun acc rs =>
      CAGED_PATTERNS.foldl (fun acc p =>
        if p.anchorString == rs then
          let sm := patternScore shape (shape.getD rs 0) p
          if sm.2 ≥ 3 then
            match acc with
            | none => some sm.1
            | some m => if sm.1 > m then some sm.1 else acc
          else acc
        else acc) acc) (none : Option Int)
    best.getD 0
  else 0

/-- The record returned per voicing (`ChordVariation` in `types.ts`). -/
structure ChordVariation where
  frets : List Int
  baseFret : Int
  cagedShape : Option String
deriving DecidableEq

def numStrings : Nat := 6

def maxFretSearch : Int := 15

def maxPhysicalFret : Int := 22

def maxIterations : Nat := 10000

/-- JS `Set.add`: append iff not already present (insertion order preserved). -/
def jsSetInsert (l : List Int) (x : Int) : List Int :=
  if l.contains x then l else l ++ [x]

/-- `targetNotes` in iteration (= insertion) order: interval pitch classes,
then the bass pitch class when a bass is given. -/
def targetNotesList (rootVal : Int) (intervals : List Int)
    (bassNoteVal : Option Int) : List Int :=
  let base := (intervals.map (fun i => jsMod (rootVal + i) 12)).foldl jsSetInsert []
  match bassNoteVal with
  | some b => jsSetInsert base (jsMod b 12)
  | none => base

/-- `effectiveBass = bassNoteVal !== null ? bassNoteVal : rootVal`. -/
def effectiveBassOf (rootVal : Int) (bassNoteVal : Option Int) : Int :=
  match bassNoteVal with
  | some b => b
  | none => rootVal

/-- Frets `1 .. m` (empty when `m ≤ 0`). -/
def fretRange (m : Int) : List Int :=
  (List.range m.toNat).map (fun k => Int.ofNat k + 1)

/-- Candidate frets for one string: mute always, open iff its pitch class is a
target, and every fret `1..effMax` whose pitch class is a target. -/
def validFretsFor (targets : List Int) (nutT : Int) (effMax : Int) : List Int :=
  [-1] ++ (if targets.contains (jsMod nutT 12) then [0] else []) ++
    (fretRange effMax).filter (fun f => targets.contains (jsMod (nutT + f) 12))

def validFretsPerString (targets : List Int) (nut : List Int) (effMax : Int) :
    List (List Int) :=
  (List.range numStrings).map (fun s => validFretsFor targets (nut.getD s 0) effMax)

/-- The per-invocation constants the recursive search closes over. -/
structure SearchCtx where
  nutTuning : List Int
  valids : List (List Int)
  targetList : List Int
  effectiveBass : Int
  fullMask : Nat

def mkCtx (rootVal : Int) (intervals : List Int) (bassNoteVal : Option Int)
    (nutTuning : List Int) (effMax : Int) : SearchCtx :=
  let targets := targetNotesList rootVal intervals bassNoteVal
  { nutTuning := nutTuning
    valids := validFretsPerString targets nutTuning effMax
    targetList := targets
    effectiveBass := effectiveBassOf rootVal bassNoteVal
    fullMask := (1 <<< targets.length) - 1 }

/-- The mutable state of the source's closure: the iteration counter and the
accumulated `rawShapes`. -/
structure SearchState where
  iter : Nat
  shapes : List (List Int)

/-- Number of target pitch classes whose coverage bit is still unset. -/
def countMissing (ctx : SearchCtx) (coveredMask : Nat) : Nat :=
  (List.range ctx.targetList.length).countP (fun i => !(coveredMask.testBit i))

/-- `nextMin` update of one candidate step (changed only for fretted notes). -/
def nextMinOf (minFret fret : Int) : Int :=
  if 0 < fret ∧ fret < minFret then fret else minFret

/-- `nextMax` update of one candidate step (changed only for fretted notes). -/
def nextMaxOf (maxFret fret : Int) : Int :=
  if 0 < fret ∧ fret > maxFret then fret else maxFret

/-- `nextCoveredMask` update: for a sounded fret whose pitch class is a
target, set that target's bit (JS `indexOf` + `|= 1 << idx`). -/
def nextCovOf (ctx : SearchCtx) (stringIdx : Nat) (coveredMask : Nat)
    (fret : Int) : Nat :=
  if fret = -1 then coveredMask
  else
    match List.findIdx?
        (fun t => t == jsMod (ctx.nutTuning.getD stringIdx 0 + fret) 12)
        ctx.targetList with
    | some i => coveredMask ||| (1 <<< i)
    | none => coveredMask

/-- The fretted (strictly positive) notes of the tentative shape. -/
def frettedOf (shape : List Int) (fret : Int) : List Int :=
  (shape ++ [fret]).filter (fun f => decide (0 < f))

/-- The tentative shape's minimum fretted value (0 when none). -/
def effMinOf (shape : List Int) (fret : Int) : Int :=
  minListD (frettedOf shape fret) 0

/-- Number of fretted notes strictly above the tentative minimum. -/
def notesAboveOf (shape : List Int) (fret : Int) : Nat :=
  ((frettedOf shape fret).filter
    (fun f => decide (effMinOf shape fret < f))).length

/-- One candidate-fret iteration of the source's `for (const fret of
candidates)` loop: the bass-placement, span, open/fretted-compatibility and
finger-budget pruning rules, then the descent (`recur`) with the updated
min/max/hasOpen/coverage state. -/
def searchStep (ctx : SearchCtx)
    (recur : Nat → List Int → Int → Int → Bool → Nat → SearchState → SearchState)
    (stringIdx : Nat) (shape : List Int) (minFret maxFret : Int) (hasOpen : Bool)
    (coveredMask : Nat) (st1 : SearchState) (fret : Int) : SearchState :=
  if fret ≠ -1 ∧ (stringIdx = 0 ∨ shape.all (fun x => x == -1)) ∧
      jsMod (ctx.nutTuning.getD stringIdx 0 + fret) 12 ≠ ctx.effectiveBass then
    st1
  else if 0 < fret ∧ (nextMaxOf maxFret fret - nextMinOf minFret fret > 3 ∨
      (hasOpen ∧ nextMaxOf maxFret fret > 4)) then st1
  else if fret = 0 ∧ nextMaxOf maxFret fret > 4 ∧ nextMaxOf maxFret fret ≠ -999 then
    st1
  else if 0 < effMinOf shape fret ∧ notesAboveOf shape fret > 3 then st1
  else if effMinOf shape fret = 0 ∧ (frettedOf shape fret).length > 4 then st1
  else
    recur (stringIdx + 1) (shape ++ [fret]) (nextMinOf minFret fret)
      (nextMaxOf maxFret fret) (if fret = 0 then true else hasOpen)
      (nextCovOf ctx stringIdx coveredMask fret) st1

/-- One string level of the recursive pruned search, with the recursive call
abstracted as `recur`.  The body is the literal translation of the source's
`search` function: iteration counting, the acceptance test at `stringIdx = 6`,
the coverage-feasibility early prune, and the candidate loop. -/
def searchGo (ctx : SearchCtx)
    (recur : Nat → List Int → Int → Int → Bool → Nat → SearchState → SearchState)
    (stringIdx : Nat) (shape : List Int) (minFret maxFret : Int) (hasOpen : Bool)
    (coveredMask : Nat) (st₀ : SearchState) : SearchState :=
  if st₀.iter + 1 > maxIterations then ⟨st₀.iter + 1, st₀.shapes⟩
  else if stringIdx = numStrings then
    if coveredMask = ctx.fullMask then ⟨st₀.iter + 1, st₀.shapes ++ [shape]⟩
    else ⟨st₀.iter + 1, st₀.shapes⟩
  else if countMissing ctx coveredMask > numStrings - stringIdx then
    ⟨st₀.iter + 1, st₀.shapes⟩
  else
    (ctx.valids.getD stringIdx []).foldl
      (searchStep ctx recur stringIdx shape minFret maxFret hasOpen coveredMask)
      ⟨st₀.iter + 1, st₀.shapes⟩

/-- Out-of-fuel behaviour: the call prologue only (counter, cap test and the
`stringIdx = 6` acceptance test), never descending.  Reached only at
`stringIdx ≥ numStrings`, where the source's `search` also never descends. -/
def searchNoFuel (ctx : SearchCtx) (stringIdx : Nat) (shape : List Int)
    (_minFret _maxFret : Int) (_hasOpen : Bool) (coveredMask : Nat)
    (st₀ : SearchState) : SearchState :=
  if st₀.iter + 1 > maxIterations then ⟨st₀.iter + 1, st₀.shapes⟩
  else if stringIdx = numStrings then
    if coveredMask = ctx.fullMask then ⟨st₀.iter + 1, st₀.shapes ++ [shape]⟩
    else ⟨st₀.iter + 1, st₀.shapes⟩
  else ⟨st₀.iter + 1, st₀.shapes⟩

/-- The pruned search.  `fuel` drives the structural recursion and is always
at least `numStrings - stringIdx`, so `searchNoFuel` is only ever reached at
string index 6. -/
def search (ctx : SearchCtx) : Nat →
    Nat → List Int → Int → Int → Bool → Nat → SearchState → SearchState
  | 0 => searchNoFuel ctx
  | fuel + 1 => searchGo ctx (search ctx fuel)

/-- `rawShapes` after the top-level `search(0, [], 999, -999, false, 0)` call. -/
def rawShapesOf (ctx : SearchCtx) : List (List Int) :=
  (search ctx numStrings 0 [] 999 (-999) false 0 ⟨0, []⟩).shapes

/-- `A.every((f, s) => f === -1 || f === B[s])`. -/
def isSubsetShape (A B : List Int) : Bool :=
  A.enum.all (fun p => p.2 == -1 || p.2 == B.getD p.1 0)

/-- The inner-loop condition under which index `i` is removed because of `j`. -/
def domCond (l : List (List Int)) (removed : List Nat) (i j : Nat) : Bool :=
  j != i && !(removed.contains j) &&
    (isSubsetShape (l.getD i []) (l.getD j []) &&
      !(isSubsetShape (l.getD j []) (l.getD i [])))

/-- One outer-loop iteration of the subset-removal pass: `i` joins `toRemove`
iff some not-yet-removed `j` strictly covers it. -/
def domStep (l : List (List Int)) (removed : List Nat) (i : Nat) : List Nat :=
  if removed.contains i then removed
  else if (List.range l.length).any (fun j => domCond l removed i j) then
    removed ++ [i]
  else removed

def computeRemoved (l : List (List Int)) : List Nat :=
  (List.range l.length).foldl (domStep l) []

/-- JS `filter((x, i) => p i)` with explicit running index. -/
def filterIdx {α : Type} (p : Nat → Bool) : Nat → List α → List α
  | _, [] => []
  | i, x :: xs => (if p i then [x] else []) ++ filterIdx p (i + 1) xs

def removeSubsets (l : List (List Int)) : List (List Int) :=
  filterIdx (fun i => !((computeRemoved l).contains i)) 0 l

/-- Comparator helper: lowest strictly-positive fret, 0 when none. -/
def getMinFret (s : List Int) : Int := minListD (s.filter (fun f => decide (0 < f))) 0

/-- Comparator helper: number of fretted (strictly positive) notes. -/
def getFingerCount (s : List Int) : Int :=
  ((s.filter (fun f => decide (0 < f))).length : Int)

/-- Comparator helper: fret span of the fretted notes, 0 when none. -/
def getSpan (s : List Int) : Int :=
  let fr := s.filter (fun f => decide (0 < f))
  match fr with
  | [] => 0
  | _ => maxListD fr 0 - minListD fr 0

/-- Comparator helper: number of non-muted strings. -/
def soundingCount (s : List Int) : Int :=
  ((s.filter (fun f => f != -1)).length : Int)

/-- Comparator helper: mutes between the first and last sounding string. -/
def getMuteScore (s : List Int) : Int :=
  match s.findIdx? (fun x => x != -1) with
  | none => 0
  | some first =>
    let last := (List.range 6).foldl (fun acc i => if s.getD i 0 != -1 then i else acc) 0
    (((List.range (last + 1 - first)).countP
        (fun k => s.getD (first + k) 0 == -1)) : Int)

/-- The sort comparator (negative: `a` ranks before `b`): root-shape match
first, then fewer fretted notes, lower position, smaller span, higher fuzzy
CAGED score, more sounding strings, fewer inner mutes. -/
def cmpChords (rootVal : Int) (nutTuning : List Int) (a b : List Int) : Int :=
  if (identifyCAGEDShape a rootVal nutTuning == some (rootPlainName rootVal)) ∧
      ¬(identifyCAGEDShape b rootVal nutTuning == some (rootPlainName rootVal)) then
    -1
  else if ¬(identifyCAGEDShape a rootVal nutTuning == some (rootPlainName rootVal)) ∧
      (identifyCAGEDShape b rootVal nutTuning == some (rootPlainName rootVal)) then
    1
  else if getFingerCount a ≠ getFingerCount b then getFingerCount a - getFingerCount b
  else if getMinFret a ≠ getMinFret b then getMinFret a - getMinFret b
  else if getSpan a ≠ getSpan b then getSpan a - getSpan b
  else if getCAGEDScore a rootVal nutTuning ≠ getCAGEDScore b rootVal nutTuning then
    getCAGEDScore b rootVal nutTuning - getCAGEDScore a rootVal nutTuning
  else if soundingCount a ≠ soundingCount b then soundingCount b - soundingCount a
  else getMuteScore a - getMuteScore b

/-- Stable insertion: `x` goes after every earlier element `y` with `le y x`.
For a total preorder `le` this realizes the unique stable sort. -/
def insertStable {α : Type} (le : α → α → Bool) (x : α) : List α → List α
  | [] => [x]
  | y :: ys => if le y x then y :: insertStable le x ys else x :: y :: ys

/-- Stable sort (the embedding of ES2019's stable `Array.prototype.sort`). -/
def sortStable {α : Type} (le : α → α → Bool) (l : List α) : List α :=
  l.foldl (fun acc x => insertStable le x acc) []

/-- The final per-shape record: display base fret and shape label. -/
def mkVariation (rootVal : Int) (nutTuning : List Int) (shape : List Int) :
    ChordVariation :=
  let frets := shape.filter (fun f => decide (0 < f))
  let minFret := minListD frets 0
  ⟨shape, if minFret > 2 then minFret else 1,
    identifyCAGEDShape shape rootVal nutTuning⟩

/-- `generateChords` body once `nutTuning` and the fret window are fixed. -/
def generateChordsCore (rootVal : Int) (intervals : List Int)
    (bassNoteVal : Option Int) (nutTuning : List Int) (effMax : Int) :
    List ChordVariation :=
  let ctx := mkCtx rootVal intervals bassNoteVal nutTuning effMax
  let valid := removeSubsets (rawShapesOf ctx)
  let sorted :=
    sortStable (fun a b => decide (cmpChords rootVal nutTuning a b ≤ 0)) valid
  sorted.map (mkVariation rootVal nutTuning)

/-- `generateChords(rootVal, intervals, tuning, capo, bassNoteVal)`. -/
def generateChords (rootVal : Int) (intervals : List Int) (tuning : List Int)
    (capo : Int) (bassNoteVal : Option Int) : List ChordVariation :=
  generateChordsCore rootVal intervals bassNoteVal
    (tuning.map (fun t => t + capo)) (min maxFretSearch (maxPhysicalFret - capo))


/-! ### Spec-side definitions

The following definitions restate properties in the words of the
specification; the theorems below relate them to the source embedding. -/

/-- Pitch class `t` is sounded by some non-muted string of `shape` under
`nutTuning` (the spec's `tuning[i] + capo + frets[i] mod 12` with
`frets[i] != -1`). -/
def soundsPC (nutTuning shape : List Int) (t : Int) : Prop :=
  ∃ k, k < shape.length ∧ shape.getD k 0 ≠ -1 ∧
    jsMod (nutTuning.getD k 0 + shape.getD k 0) 12 = t

/-- Spec-side exact-match condition for one shape pattern: the anchor string
is sounded, the anchor's pitch class equals the chord root, and for every
string the fret equals `anchorFret + offset` when the offset is defined, or
the string is muted when the offset is "don't care". -/
def shapeMatchesSpec (shape : List Int) (rootVal : Int) (tuning : List Int)
    (p : ShapePattern) : Prop :=
  shape.getD p.anchorString 0 ≠ -1 ∧
  jsMod (tuning.getD p.anchorString 0 + shape.getD p.anchorString 0) 12 = rootVal ∧
  ∀ s, s < 6 →
    (∀ off, p.offsets.getD s none = some off →
      shape.getD s 0 = shape.getD p.anchorString 0 + off) ∧
    (p.offsets.getD s none = none → shape.getD s 0 = -1)

/-- Placeholder pattern for out-of-range library indexing. -/
def defaultPattern : ShapePattern := ⟨"", 0, []⟩

/-- Spec-side ranking key (1): the voicing's exact shape label equals the
root's plain letter name. -/
def isRootShapeMatch (rootVal : Int) (nutTuning : List Int) (s : List Int) : Bool :=
  identifyCAGEDShape s rootVal nutTuning == some (rootPlainName rootVal)

/-- The seven ranking keys of the spec, in order, each oriented so that
smaller is better: shape-label match, fretted-note count, minimum fretted
position, span, negated fuzzy CAGED score, negated sounding-string count,
inner-mute count. -/
def rankKeys (rootVal : Int) (nutTuning : List Int) (s : List Int) : List Int :=
  [if isRootShapeMatch rootVal nutTuning s then 0 else 1,
   getFingerCount s,
   getMinFret s,
   getSpan s,
   -(getCAGEDScore s rootVal nutTuning),
   -(soundingCount s),
   getMuteScore s]

/-- Lexicographic `≤` on key vectors (ties fall through to the next key). -/
def lexLe : List Int → List Int → Bool
  | [], _ => true
  | _ :: _, [] => true
  | x :: xs, y :: ys =>
    if x < y then true else if y < x then false else lexLe xs ys

/-- The spec's ranking order: `a` ranks before-or-with `b` iff its key vector
is lexicographically `≤`. -/
def specRankLe (rootVal : Int) (nutTuning : List Int) (a b : List Int) : Bool :=
  lexLe (rankKeys rootVal nutTuning a) (rankKeys rootVal nutTuning b)

/-- The all-muted shape. -/
def allMuted : List Int := [-1, -1, -1, -1, -1, -1]

/-! ### Concrete pipeline stages for Scenarios A and B

Literal intermediate lists of the engine run (raw search output, survivors
of the subset-removal pass, sorted order, final records), proved equal to
the engine stages below. -/

-- Scenario A (root C major, standard tuning, capo 0): iter=280 raw=63 surv=15
def rawA : List (List Int) :=
  [[(-1), (-1), (-1), 5, 5, 3],
   [(-1), (-1), 10, 9, 8, (-1)],
   [(-1), (-1), 10, 9, 8, 8],
   [(-1), (-1), 10, 12, (-1), 12],
   [(-1), (-1), 10, 12, 13, 12],
   [(-1), 3, (-1), (-1), 5, 3],
   [(-1), 3, (-1), 0, (-1), 0],
   [(-1), 3, (-1), 0, 1, 0],
   [(-1), 3, (-1), 5, 5, 3],
   [(-1), 3, 2, (-1), (-1), 3],
   [(-1), 3, 2, (-1), 1, 3],
   [(-1), 3, 2, (-1), 5, 3],
   [(-1), 3, 2, 0, (-1), (-1)],
   [(-1), 3, 2, 0, (-1), 0],
   [(-1), 3, 2, 0, (-1), 3],
   [(-1), 3, 2, 0, 1, (-1)],
   [(-1), 3, 2, 0, 1, 0],
   [(-1), 3, 2, 0, 1, 3],
   [(-1), 3, 2, 5, (-1), 3],
   [(-1), 3, 5, (-1), 5, (-1)],
   [(-1), 3, 5, (-1), 5, 3],
   [(-1), 3, 5, 5, 5, (-1)],
   [(-1), 3, 5, 5, 5, 3],
   [(-1), 15, (-1), 12, (-1), 12],
   [(-1), 15, (-1), 12, 13, 12],
   [(-1), 15, 14, (-1), (-1), 15],
   [(-1), 15, 14, (-1), 13, 15],
   [(-1), 15, 14, 12, (-1), (-1)],
   [(-1), 15, 14, 12, (-1), 12],
   [(-1), 15, 14, 12, (-1), 15],
   [(-1), 15, 14, 12, 13, (-1)],
   [(-1), 15, 14, 12, 13, 12],
   [8, (-1), (-1), 9, 8, (-1)],
   [8, (-1), (-1), 9, 8, 8],
   [8, (-1), 5, (-1), 5, (-1)],
   [8, (-1), 5, (-1), 5, 8],
   [8, (-1), 5, 5, 5, (-1)],
   [8, (-1), 5, 5, 5, 8],
   [8, (-1), 10, 9, 8, (-1)],
   [8, (-1), 10, 9, 8, 8],
   [8, 7, (-1), (-1), 8, (-1)],
   [8, 7, (-1), (-1), 8, 8],
   [8, 7, (-1), 5, 8, (-1)],
   [8, 7, (-1), 9, 8, (-1)],
   [8, 7, 5, (-1), (-1), (-1)],
   [8, 7, 5, (-1), (-1), 8],
   [8, 7, 5, (-1), 5, (-1)],
   [8, 7, 5, (-1), 5, 8],
   [8, 7, 5, (-1), 8, (-1)],
   [8, 7, 5, 5, (-1), (-1)],
   [8, 7, 5, 5, (-1), 8],
   [8, 7, 5, 5, 5, (-1)],
   [8, 7, 5, 5, 5, 8],
   [8, 7, 5, 5, 8, (-1)],
   [8, 7, 10, (-1), 8, (-1)],
   [8, 10, (-1), 9, (-1), (-1)],
   [8, 10, (-1), 9, (-1), 8],
   [8, 10, (-1), 9, 8, (-1)],
   [8, 10, (-1), 9, 8, 8],
   [8, 10, 10, 9, (-1), (-1)],
   [8, 10, 10, 9, (-1), 8],
   [8, 10, 10, 9, 8, (-1)],
   [8, 10, 10, 9, 8, 8]]

def survA : List (List Int) :=
  [[(-1), (-1), 10, 12, 13, 12],
   [(-1), 3, 2, (-1), 5, 3],
   [(-1), 3, 2, 0, 1, 0],
   [(-1), 3, 2, 0, 1, 3],
   [(-1), 3, 2, 5, (-1), 3],
   [(-1), 3, 5, 5, 5, 3],
   [(-1), 15, 14, (-1), 13, 15],
   [(-1), 15, 14, 12, (-1), 15],
   [(-1), 15, 14, 12, 13, 12],
   [8, 7, (-1), (-1), 8, 8],
   [8, 7, (-1), 9, 8, (-1)],
   [8, 7, 5, 5, 5, 8],
   [8, 7, 5, 5, 8, (-1)],
   [8, 7, 10, (-1), 8, (-1)],
   [8, 10, 10, 9, 8, 8]]

def sortedA : List (List Int) :=
  [[(-1), 3, 2, 0, 1, 0],
   [(-1), 15, 14, 12, 13, 12],
   [(-1), 3, 2, 0, 1, 3],
   [(-1), 3, 2, (-1), 5, 3],
   [(-1), 3, 2, 5, (-1), 3],
   [8, 7, (-1), (-1), 8, 8],
   [8, 7, (-1), 9, 8, (-1)],
   [8, 7, 10, (-1), 8, (-1)],
   [(-1), (-1), 10, 12, 13, 12],
   [(-1), 15, 14, 12, (-1), 15],
   [(-1), 15, 14, (-1), 13, 15],
   [(-1), 3, 5, 5, 5, 3],
   [8, 7, 5, 5, 8, (-1)],
   [8, 7, 5, 5, 5, 8],
   [8, 10, 10, 9, 8, 8]]

def varsA : List ChordVariation :=
  [⟨[(-1), 3, 2, 0, 1, 0], 1, (some ("C"))⟩,
   ⟨[(-1), 15, 14, 12, 13, 12], 12, (some ("C"))⟩,
   ⟨[(-1), 3, 2, 0, 1, 3], 1, none⟩,
   ⟨[(-1), 3, 2, (-1), 5, 3], 1, none⟩,
   ⟨[(-1), 3, 2, 5, (-1), 3], 1, none⟩,
   ⟨[8, 7, (-1), (-1), 8, 8], 7, none⟩,
   ⟨[8, 7, (-1), 9, 8, (-1)], 7, none⟩,
   ⟨[8, 7, 10, (-1), 8, (-1)], 7, none⟩,
   ⟨[(-1), (-1), 10, 12, 13, 12], 10, (some ("D"))⟩,
   ⟨[(-1), 15, 14, 12, (-1), 15], 12, none⟩,
   ⟨[(-1), 15, 14, (-1), 13, 15], 13, none⟩,
   ⟨[(-1), 3, 5, 5, 5, 3], 3, (some ("A"))⟩,
   ⟨[8, 7, 5, 5, 8, (-1)], 5, none⟩,
   ⟨[8, 7, 5, 5, 5, 8], 5, (some ("G"))⟩,
   ⟨[8, 10, 10, 9, 8, 8], 8, (some ("E"))⟩]

-- Scenario B (root C major, standard tuning, capo 2): iter=294 raw=64 surv=15
def rawB : List (List Int) :=
  [[(-1), (-1), (-1), 3, 3, 1],
   [(-1), (-1), (-1), 15, 15, 13],
   [(-1), (-1), 8, 7, 6, (-1)],
   [(-1), (-1), 8, 7, 6, 6],
   [(-1), (-1), 8, 10, (-1), 10],
   [(-1), (-1), 8, 10, 11, 10],
   [(-1), 1, (-1), (-1), 3, 1],
   [(-1), 1, (-1), 3, 3, 1],
   [(-1), 1, 0, (-1), (-1), 1],
   [(-1), 1, 0, (-1), 3, 1],
   [(-1), 1, 0, 3, (-1), 1],
   [(-1), 1, 0, 3, 3, 1],
   [(-1), 1, 3, (-1), 3, (-1)],
   [(-1), 1, 3, (-1), 3, 1],
   [(-1), 1, 3, 3, 3, (-1)],
   [(-1), 1, 3, 3, 3, 1],
   [(-1), 13, (-1), (-1), 15, 13],
   [(-1), 13, (-1), 10, (-1), 10],
   [(-1), 13, (-1), 10, 11, 10],
   [(-1), 13, (-1), 15, 15, 13],
   [(-1), 13, 12, (-1), (-1), 13],
   [(-1), 13, 12, (-1), 11, 13],
   [(-1), 13, 12, (-1), 15, 13],
   [(-1), 13, 12, 10, (-1), (-1)],
   [(-1), 13, 12, 10, (-1), 10],
   [(-1), 13, 12, 10, (-1), 13],
   [(-1), 13, 12, 10, 11, (-1)],
   [(-1), 13, 12, 10, 11, 10],
   [(-1), 13, 12, 15, (-1), 13],
   [(-1), 13, 15, (-1), 15, (-1)],
   [(-1), 13, 15, (-1), 15, 13],
   [(-1), 13, 15, 15, 15, (-1)],
   [(-1), 13, 15, 15, 15, 13],
   [6, (-1), (-1), 7, 6, (-1)],
   [6, (-1), (-1), 7, 6, 6],
   [6, (-1), 3, (-1), 3, (-1)],
   [6, (-1), 3, (-1), 3, 6],
   [6, (-1), 3, 3, 3, (-1)],
   [6, (-1), 3, 3, 3, 6],
   [6, (-1), 8, 7, 6, (-1)],
   [6, (-1), 8, 7, 6, 6],
   [6, 5, (-1), (-1), 6, (-1)],
   [6, 5, (-1), (-1), 6, 6],
   [6, 5, (-1), 3, 6, (-1)],
   [6, 5, (-1), 7, 6, (-1)],
   [6, 5, 3, (-1), (-1), (-1)],
   [6, 5, 3, (-1), (-1), 6],
   [6, 5, 3, (-1), 3, (-1)],
   [6, 5, 3, (-1), 3, 6],
   [6, 5, 3, (-1), 6, (-1)],
   [6, 5, 3, 3, (-1), (-1)],
   [6, 5, 3, 3, (-1), 6],
   [6, 5, 3, 3, 3, (-1)],
   [6, 5, 3, 3, 3, 6],
   [6, 5, 3, 3, 6, (-1)],
   [6, 5, 8, (-1), 6, (-1)],
   [6, 8, (-1), 7, (-1), (-1)],
   [6, 8, (-1), 7, (-1), 6],
   [6, 8, (-1), 7, 6, (-1)],
   [6, 8, (-1), 7, 6, 6],
   [6, 8, 8, 7, (-1), (-1)],
   [6, 8, 8, 7, (-1), 6],
   [6, 8, 8, 7, 6, (-1)],
   [6, 8, 8, 7, 6, 6]]

def survB : List (List Int) :=
  [[(-1), (-1), 8, 10, 11, 10],
   [(-1), 1, 0, 3, 3, 1],
   [(-1), 1, 3, 3, 3, 1],
   [(-1), 13, 12, (-1), 11, 13],
   [(-1), 13, 12, (-1), 15, 13],
   [(-1), 13, 12, 10, (-1), 13],
   [(-1), 13, 12, 10, 11, 10],
   [(-1), 13, 12, 15, (-1), 13],
   [(-1), 13, 15, 15, 15, 13],
   [6, 5, (-1), (-1), 6, 6],
   [6, 5, (-1), 7, 6, (-1)],
   [6, 5, 3, 3, 3, 6],
   [6, 5, 3, 3, 6, (-1)],
   [6, 5, 8, (-1), 6, (-1)],
   [6, 8, 8, 7, 6, 6]]

def sortedB : List (List Int) :=
  [[(-1), 13, 12, 10, 11, 10],
   [(-1), 1, 0, 3, 3, 1],
   [6, 5, (-1), (-1), 6, 6],
   [6, 5, (-1), 7, 6, (-1)],
   [6, 5, 8, (-1), 6, (-1)],
   [(-1), (-1), 8, 10, 11, 10],
   [(-1), 13, 12, 10, (-1), 13],
   [(-1), 13, 12, (-1), 11, 13],
   [(-1), 13, 12, (-1), 15, 13],
   [(-1), 13, 12, 15, (-1), 13],
   [(-1), 1, 3, 3, 3, 1],
   [6, 5, 3, 3, 6, (-1)],
   [(-1), 13, 15, 15, 15, 13],
   [6, 5, 3, 3, 3, 6],
   [6, 8, 8, 7, 6, 6]]

def varsB : List ChordVariation :=
  [⟨[(-1), 13, 12, 10, 11, 10], 10, (some ("C"))⟩,
   ⟨[(-1), 1, 0, 3, 3, 1], 1, none⟩,
   ⟨[6, 5, (-1), (-1), 6, 6], 5, none⟩,
   ⟨[6, 5, (-1), 7, 6, (-1)], 5, none⟩,
   ⟨[6, 5, 8, (-1), 6, (-1)], 5, none⟩,
   ⟨[(-1), (-1), 8, 10, 11, 10], 8, (some ("D"))⟩,
   ⟨[(-1), 13, 12, 10, (-1), 13], 10, none⟩,
   ⟨[(-1), 13, 12, (-1), 11, 13], 11, none⟩,
   ⟨[(-1), 13, 12, (-1), 15, 13], 12, none⟩,
   ⟨[(-1), 13, 12, 15, (-1), 13], 12, none⟩,
   ⟨[(-1), 1, 3, 3, 3, 1], 1, (some ("A"))⟩,
   ⟨[6, 5, 3, 3, 6, (-1)], 3, none⟩,
   ⟨[(-1), 13, 15, 15, 15, 13], 13, (some ("A"))⟩,
   ⟨[6, 5, 3, 3, 3, 6], 3, (some ("G"))⟩,
   ⟨[6, 8, 8, 7, 6, 6], 6, (some ("E"))⟩]


/-! ### Search invariants (definitions) -/

/-- Coverage-mask soundness: every set bit below the target count corresponds
to a target pitch class already sounded by the partial shape. -/
def maskOK (ctx : SearchCtx) (coveredMask : Nat) (shape : List Int) : Prop :=
  ∀ i, i < ctx.targetList.length → coveredMask.testBit i = true →
    soundsPC ctx.nutTuning shape (ctx.targetList.getD i 0)

/-- Bass soundness: if the shape has a first non-muted string, it sounds the
effective bass pitch class. -/
def firstSoundOK (ctx : SearchCtx) (shape : List Int) : Prop :=
  ∀ k, shape.findIdx? (fun x => x != -1) = some k →
    jsMod (ctx.nutTuning.getD k 0 + shape.getD k 0) 12 = ctx.effectiveBass

/-- All entries of a shape are at least `-1` (mute). -/
def entriesGE (shape : List Int) : Prop :=
  ∀ k, k < shape.length → -1 ≤ shape.getD k 0

/-! ### List helper lemmas -/

theorem foldl_preserve {α β : Type} (P : β → Prop) {f : β → α → β}
    (l : List α) (b : β) (h : ∀ b' a, a ∈ l → P b' → P (f b' a)) (hb : P b) :
    P (l.foldl f b) := by
  induction l generalizing b with
  | nil => exact hb
  | cons a l ih =>
    exact ih (f b a) (fun b' x hx => h b' x (List.mem_cons_of_mem a hx))
      (h b a (List.mem_cons_self a l) hb)

theorem mem_insertStable {α : Type} {le : α → α → Bool} {x a : α} :
    ∀ {l : List α}, x ∈ insertStable le a l → x = a ∨ x ∈ l := by
  intro l
  induction l with
  | nil => simp [insertStable]
  | cons y ys ih =>
    simp only [insertStable]
    split
    · intro h
      rcases List.mem_cons.mp h with h | h
      · exact Or.inr (h ▸ List.mem_cons_self y ys)
      · rcases ih h with h | h
        · exact Or.inl h
        · exact Or.inr (List.mem_cons_of_mem y h)
    · intro h
      rcases List.mem_cons.mp h with h | h
      · exact Or.inl h
      · exact Or.inr h

theorem mem_foldl_insertStable {α : Type} {le : α → α → Bool} {x : α} :
    ∀ (l acc : List α),
      x ∈ l.foldl (fun acc y => insertStable le y acc) acc → x ∈ acc ∨ x ∈ l
  | [], _, h => Or.inl h
  | y :: ys, acc, h => by
    rcases mem_foldl_insertStable ys (insertStable le y acc) h with h' | h'
    · rcases mem_insertStable h' with h'' | h''
      · exact Or.inr (h'' ▸ List.mem_cons_self y ys)
      · exact Or.inl h''
    · exact Or.inr (List.mem_cons_of_mem y h')

theorem mem_sortStable {α : Type} {le : α → α → Bool} {x : α} {l : List α}
    (h : x ∈ sortStable le l) : x ∈ l := by
  rcases mem_foldl_insertStable l [] h with h' | h'
  · exact absurd h' (List.not_mem_nil x)
  · exact h'

theorem mem_filterIdx_index {α : Type} {p : Nat → Bool} {x : α} :
    ∀ (l : List α) (i : Nat), x ∈ filterIdx p i l →
      ∃ k, ∃ hk : k < l.length, p (i + k) = true ∧ l[k] = x
  | [], _, h => absurd h (List.not_mem_nil x)
  | a :: l, i, h => by
    simp only [filterIdx] at h
    by_cases hp : p i
    · rw [if_pos hp] at h
      rcases List.mem_append.mp h with h | h
      · refine ⟨0, by simp, by simpa using hp, ?_⟩
        simpa using (List.mem_singleton.mp h).symm
      · obtain ⟨k, hk, hpk, hx⟩ := mem_filterIdx_index l (i + 1) h
        refine ⟨k + 1, by simpa using hk, ?_, by simpa using hx⟩
        rw [show i + (k + 1) = i + 1 + k by omega]
        exact hpk
    · rw [if_neg hp] at h
      simp only [List.nil_append] at h
      obtain ⟨k, hk, hpk, hx⟩ := mem_filterIdx_index l (i + 1) h
      refine ⟨k + 1, by simpa using hk, ?_, by simpa using hx⟩
      rw [show i + (k + 1) = i + 1 + k by omega]
      exact hpk

theorem mem_removeSubsets_index {x : List Int} {l : List (List Int)}
    (h : x ∈ removeSubsets l) :
    ∃ k, ∃ hk : k < l.length,
      (computeRemoved l).contains k = false ∧ l[k] = x := by
  obtain ⟨k, hk, hpk, hx⟩ := mem_filterIdx_index l 0 h
  refine ⟨k, hk, ?_, hx⟩
  simpa using hpk

theorem mem_removeSubsets {x : List Int} {l : List (List Int)}
    (h : x ∈ removeSubsets l) : x ∈ l := by
  obtain ⟨k, hk, _, hx⟩ := mem_removeSubsets_index h
  exact hx ▸ List.getElem_mem hk

theorem mkVariation_frets (rootVal : Int) (nutTuning shape : List Int) :
    (mkVariation rootVal nutTuning shape).frets = shape := rfl

theorem mem_generateChordsCore {rootVal : Int} {intervals : List Int}
    {bassNoteVal : Option Int} {nutTuning : List Int} {effMax : Int}
    {v : ChordVariation}
    (hv : v ∈ generateChordsCore rootVal intervals bassNoteVal nutTuning effMax) :
    ∃ shape ∈ rawShapesOf (mkCtx rootVal intervals bassNoteVal nutTuning effMax),
      v = mkVariation rootVal nutTuning shape := by
  simp only [generateChordsCore] at hv
  rcases List.mem_map.mp hv with ⟨shape, hs, rfl⟩
  exact ⟨shape, mem_removeSubsets (mem_sortStable hs), rfl⟩

/-! ### Candidate-step analysis -/

theorem nextCovOf_cases (ctx : SearchCtx) (stringIdx : Nat) (coveredMask : Nat)
    (fret : Int) :
    nextCovOf ctx stringIdx coveredMask fret = coveredMask ∨
    (fret ≠ -1 ∧ ∃ i, List.findIdx?
        (fun t => t == jsMod (ctx.nutTuning.getD stringIdx 0 + fret) 12)
        ctx.targetList = some i ∧
      nextCovOf ctx stringIdx coveredMask fret = coveredMask ||| (1 <<< i)) := by
  by_cases hf : fret = -1
  · left; simp [nextCovOf, hf]
  · cases hfind : List.findIdx?
        (fun t => t == jsMod (ctx.nutTuning.getD stringIdx 0 + fret) 12)
        ctx.targetList with
    | none => left; simp only [nextCovOf, if_neg hf, hfind]
    | some i =>
      right
      refine ⟨hf, i, rfl, ?_⟩
      simp only [nextCovOf, if_neg hf, hfind]

theorem searchStep_preserve (ctx : SearchCtx)
    (recur : Nat → List Int → Int → Int → Bool → Nat → SearchState → SearchState)
    (stringIdx : Nat) (shape : List Int) (minFret maxFret : Int) (hasOpen : Bool)
    (coveredMask : Nat) (st1 : SearchState) (fret : Int)
    (P : SearchState → Prop) (hP : P st1)
    (hrec : ∀ nextMin nextMax nextHasOpen,
      ¬(fret ≠ -1 ∧ (stringIdx = 0 ∨ shape.all (fun x => x == -1)) ∧
        jsMod (ctx.nutTuning.getD stringIdx 0 + fret) 12 ≠ ctx.effectiveBass) →
      P (recur (stringIdx + 1) (shape ++ [fret]) nextMin nextMax nextHasOpen
        (nextCovOf ctx stringIdx coveredMask fret) st1)) :
    P (searchStep ctx recur stringIdx shape minFret maxFret hasOpen coveredMask st1 fret) := by
  unfold searchStep
  split_ifs with h1 h2 h3 h4 h5 h6
  · exact hP
  · exact hP
  · exact hP
  · exact hP
  · exact hP
  · exact hrec _ _ _ h1
  · exact hrec _ _ _ h1

/-! ### Sounded-pitch-class lemmas -/

theorem getD_concat_length (l : List Int) (x d : Int) :
    (l ++ [x]).getD l.length d = x := by
  rw [List.getD_append_right _ _ _ _ (Nat.le_refl _)]
  simp

theorem soundsPC_append {nut s : List Int} {t : Int} (l' : List Int)
    (h : soundsPC nut s t) : soundsPC nut (s ++ l') t := by
  obtain ⟨k, hk, hne, heq⟩ := h
  refine ⟨k, by simp; omega, ?_, ?_⟩
  · rwa [List.getD_append _ _ _ _ hk]
  · rwa [List.getD_append _ _ _ _ hk]

theorem soundsPC_last {nut s : List Int} {fret t : Int} (hne : fret ≠ -1)
    (heq : jsMod (nut.getD s.length 0 + fret) 12 = t) :
    soundsPC nut (s ++ [fret]) t := by
  refine ⟨s.length, by simp, ?_, ?_⟩
  · rwa [getD_concat_length]
  · rwa [getD_concat_length]

/-! ### `mkCtx` projections -/

theorem mkCtx_targetList (r : Int) (iv : List Int) (b : Option Int)
    (nut : List Int) (m : Int) :
    (mkCtx r iv b nut m).targetList = targetNotesList r iv b := rfl

theorem mkCtx_nutTuning (r : Int) (iv : List Int) (b : Option Int)
    (nut : List Int) (m : Int) : (mkCtx r iv b nut m).nutTuning = nut := rfl

theorem mkCtx_effectiveBass (r : Int) (iv : List Int) (b : Option Int)
    (nut : List Int) (m : Int) :
    (mkCtx r iv b nut m).effectiveBass = effectiveBassOf r b := rfl

theorem mkCtx_fullMask (r : Int) (iv : List Int) (b : Option Int)
    (nut : List Int) (m : Int) :
    (mkCtx r iv b nut m).fullMask = 2 ^ (targetNotesList r iv b).length - 1 := by
  show (1 <<< (targetNotesList r iv b).length) - 1 = _
  rw [Nat.one_shiftLeft]

/-! ### Coverage invariant (claim C1's engine) -/

theorem maskOK_append (ctx : SearchCtx) {cov : Nat} {shape : List Int}
    (h : maskOK ctx cov shape) (l' : List Int) :
    maskOK ctx cov (shape ++ l') :=
  fun i hi htb => soundsPC_append l' (h i hi htb)

theorem search_cov (ctx : SearchCtx)
    (hfull : ctx.fullMask = 2 ^ ctx.targetList.length - 1) :
    ∀ (fuel stringIdx : Nat) (shape : List Int) (mn mx : Int) (ho : Bool)
      (cov : Nat) (st : SearchState),
      shape.length = stringIdx → maskOK ctx cov shape →
      (∀ s ∈ st.shapes, ∀ t ∈ ctx.targetList, soundsPC ctx.nutTuning s t) →
      ∀ s ∈ (search ctx fuel stringIdx shape mn mx ho cov st).shapes,
        ∀ t ∈ ctx.targetList, soundsPC ctx.nutTuning s t := by
  have leaf : ∀ (stringIdx : Nat) (shape : List Int) (cov : Nat)
      (st : SearchState), shape.length = stringIdx → maskOK ctx cov shape →
      (∀ s ∈ st.shapes, ∀ t ∈ ctx.targetList, soundsPC ctx.nutTuning s t) →
      cov = ctx.fullMask →
      ∀ s ∈ st.shapes ++ [shape], ∀ t ∈ ctx.targetList,
        soundsPC ctx.nutTuning s t := by
    intro stringIdx shape cov st _ hmask hst hcov s hs t ht
    rcases List.mem_append.mp hs with hs | hs
    · exact hst s hs t ht
    · have hs' : s = shape := by simpa using hs
      subst hs'
      obtain ⟨i, hi, hti⟩ := List.mem_iff_getElem.mp ht
      have htb : cov.testBit i = true := by
        rw [hcov, hfull, Nat.testBit_two_pow_sub_one]
        simpa using hi
      have := hmask i hi htb
      rwa [List.getD_eq_getElem _ _ hi, hti] at this
  intro fuel
  induction fuel with
  | zero =>
    intro stringIdx shape mn mx ho cov st hlen hmask hst
    show ∀ s ∈ (searchNoFuel ctx stringIdx shape mn mx ho cov st).shapes, _
    unfold searchNoFuel
    split_ifs with hcap hidx hcov
    · exact hst
    · exact leaf stringIdx shape cov st hlen hmask hst hcov
    · exact hst
    · exact hst
  | succ fuel ih =>
    intro stringIdx shape mn mx ho cov st hlen hmask hst
    show ∀ s ∈ (searchGo ctx (search ctx fuel) stringIdx shape mn mx ho cov st).shapes, _
    unfold searchGo
    split_ifs with hcap hidx hcov hmiss
    · exact hst
    · exact leaf stringIdx shape cov st hlen hmask hst hcov
    · exact hst
    · exact hst
    · refine foldl_preserve
        (fun (st' : SearchState) => ∀ s ∈ st'.shapes, ∀ t ∈ ctx.targetList,
          soundsPC ctx.nutTuning s t) _ _ ?_ hst
      intro st1 fret _ hP1
      apply searchStep_preserve ctx (search ctx fuel) stringIdx shape mn mx ho
        cov st1 fret
        (fun (st' : SearchState) => ∀ s ∈ st'.shapes, ∀ t ∈ ctx.targetList,
          soundsPC ctx.nutTuning s t) hP1
      intro nMin nMax nHo _
      apply ih (stringIdx + 1) (shape ++ [fret]) nMin nMax nHo
        (nextCovOf ctx stringIdx cov fret) st1 (by simp [hlen]) ?_ hP1
      rcases nextCovOf_cases ctx stringIdx cov fret with hc | ⟨hf, i, hfind, hc⟩
      · rw [hc]; exact maskOK_append ctx hmask [fret]
      · rw [hc]
        intro j hj htb
        rw [Nat.testBit_or] at htb
        rcases (Bool.or_eq_true _ _).mp htb with hb | hb
        · exact soundsPC_append [fret] (hmask j hj hb)
        · rw [Nat.one_shiftLeft, Nat.testBit_two_pow] at hb
          have hij : i = j := by simpa using hb
          subst hij
          obtain ⟨hilen, hpi, _⟩ := List.findIdx?_eq_some_iff_getElem.mp hfind
          have hgd : ctx.targetList.getD i 0 =
              jsMod (ctx.nutTuning.getD stringIdx 0 + fret) 12 := by
            rw [List.getD_eq_getElem _ _ hilen]
            exact eq_of_beq hpi
          rw [hgd]
          exact soundsPC_last hf (by rw [hlen])

/-! ### Target-list membership -/

theorem mem_jsSetInsert_self (l : List Int) (x : Int) : x ∈ jsSetInsert l x := by
  unfold jsSetInsert
  split_ifs with h
  · exact List.elem_iff.mp h
  · exact List.mem_append.mpr (Or.inr (List.mem_singleton.mpr rfl))

theorem mem_jsSetInsert_of_mem {l : List Int} {x : Int} (y : Int) (h : x ∈ l) :
    x ∈ jsSetInsert l y := by
  unfold jsSetInsert
  split_ifs
  · exact h
  · exact List.mem_append.mpr (Or.inl h)

theorem mem_foldl_jsSetInsert_of_mem_acc {x : Int} :
    ∀ (l : List Int) (acc : List Int), x ∈ acc → x ∈ l.foldl jsSetInsert acc
  | [], _, h => h
  | y :: l, acc, h =>
    mem_foldl_jsSetInsert_of_mem_acc l (jsSetInsert acc y)
      (mem_jsSetInsert_of_mem y h)

theorem mem_foldl_jsSetInsert_of_mem_list {x : Int} :
    ∀ (l : List Int) (acc : List Int), x ∈ l → x ∈ l.foldl jsSetInsert acc
  | [], _, h => absurd h (List.not_mem_nil x)
  | y :: l, acc, h => by
    rcases List.mem_cons.mp h with h | h
    · exact mem_foldl_jsSetInsert_of_mem_acc l (jsSetInsert acc y)
        (h ▸ mem_jsSetInsert_self acc y)
    · exact mem_foldl_jsSetInsert_of_mem_list l (jsSetInsert acc y) h

theorem mem_targetNotesList_interval {rootVal : Int} {intervals : List Int}
    (bassNoteVal : Option Int) {i : Int} (hi : i ∈ intervals) :
    jsMod (rootVal + i) 12 ∈ targetNotesList rootVal intervals bassNoteVal := by
  have hbase : jsMod (rootVal + i) 12 ∈
      (intervals.map (fun i => jsMod (rootVal + i) 12)).foldl jsSetInsert [] :=
    mem_foldl_jsSetInsert_of_mem_list _ []
      (List.mem_map.mpr ⟨i, hi, rfl⟩)
  unfold targetNotesList
  cases bassNoteVal with
  | none => exact hbase
  | some b => exact mem_jsSetInsert_of_mem _ hbase

theorem mem_targetNotesList_bass (rootVal : Int) (intervals : List Int)
    (b : Int) : jsMod b 12 ∈ targetNotesList rootVal intervals (some b) :=
  mem_jsSetInsert_self _ _

/-! ### Coverage of all raw shapes -/

theorem rawShapes_cover {rootVal : Int} {intervals : List Int}
    {bassNoteVal : Option Int} {nutTuning : List Int} {effMax : Int}
    {shape : List Int}
    (hs : shape ∈ rawShapesOf (mkCtx rootVal intervals bassNoteVal nutTuning effMax)) :
    ∀ t ∈ targetNotesList rootVal intervals bassNoteVal,
      soundsPC nutTuning shape t := by
  have h := search_cov (mkCtx rootVal intervals bassNoteVal nutTuning effMax)
    (mkCtx_fullMask rootVal intervals bassNoteVal nutTuning effMax)
    numStrings 0 [] 999 (-999) false 0 ⟨0, []⟩ rfl
    (fun i _ htb => by simp [Nat.zero_testBit] at htb)
    (fun s hs => absurd hs (List.not_mem_nil s))
    shape hs
  exact h

/-- **C1** (coverage): every voicing returned by `generateChords` sounds, on
its non-muted strings, every target pitch class `(rootVal + interval) mod 12`
and, when a bass is given, `bassNoteVal mod 12` — the sounded pitch-class set
(computed as `(tuning[k] + capo + frets[k]) mod 12` over strings with
`frets[k] ≠ -1`, here via the capo-shifted tuning) is a superset of the target
set.  This covers every returned voicing, including any accumulated before the
iteration cap, since no assumption on the iteration count is made. -/
theorem C1_coverage (rootVal : Int) (intervals tuning : List Int) (capo : Int)
    (bassNoteVal : Option Int) (v : ChordVariation)
    (hv : v ∈ generateChords rootVal intervals tuning capo bassNoteVal) :
    (∀ i ∈ intervals,
      soundsPC (tuning.map (fun t => t + capo)) v.frets (jsMod (rootVal + i) 12)) ∧
    (∀ b, bassNoteVal = some b →
      soundsPC (tuning.map (fun t => t + capo)) v.frets (jsMod b 12)) := by
  obtain ⟨shape, hs, hveq⟩ := mem_generateChordsCore hv
  have hfr : v.frets = shape := by rw [hveq, mkVariation_frets]
  rw [hfr]
  have hcov := rawShapes_cover hs
  constructor
  · intro i hi
    exact hcov _ (mem_targetNotesList_interval bassNoteVal hi)
  · rintro b rfl
    exact hcov _ (mem_targetNotesList_bass rootVal intervals b)

/-! ### Bass-placement invariant (claim C2's engine) -/

theorem firstSoundOK_extend (ctx : SearchCtx) {shape : List Int} {fret : Int}
    {stringIdx : Nat} (hlen : shape.length = stringIdx)
    (hfs : firstSoundOK ctx shape)
    (hguard : ¬(fret ≠ -1 ∧ (stringIdx = 0 ∨ shape.all (fun x => x == -1)) ∧
      jsMod (ctx.nutTuning.getD stringIdx 0 + fret) 12 ≠ ctx.effectiveBass)) :
    firstSoundOK ctx (shape ++ [fret]) := by
  intro k hk
  rw [List.findIdx?_append] at hk
  cases hfind : shape.findIdx? (fun x => x != -1) with
  | some k0 =>
    rw [hfind, Option.or_some] at hk
    have hk0 : k = k0 := (Option.some_inj.mp hk).symm
    subst hk0
    obtain ⟨hlt, _, _⟩ := List.findIdx?_eq_some_iff_getElem.mp hfind
    rw [List.getD_append _ _ _ _ hlt]
    exact hfs k hfind
  | none =>
    rw [hfind, Option.none_or] at hk
    by_cases hf : fret = -1
    · rw [hf] at hk
      simp at hk
    · have hsingle : ([fret].findIdx? (fun x => x != -1)) = some 0 := by
        simp [hf]
      rw [hsingle] at hk
      simp only [Option.map_some'] at hk
      have hkk : k = shape.length := by
        have := Option.some_inj.mp hk
        omega
      subst hkk
      rw [getD_concat_length]
      have hall : shape.all (fun x => x == -1) = true := by
        rw [List.all_eq_true]
        intro x hx
        have := List.findIdx?_eq_none_iff.mp hfind x hx
        simpa using this
      rw [hlen]
      by_contra hne
      exact hguard ⟨hf, Or.inr hall, hne⟩

theorem search_bass (ctx : SearchCtx) :
    ∀ (fuel stringIdx : Nat) (shape : List Int) (mn mx : Int) (ho : Bool)
      (cov : Nat) (st : SearchState),
      shape.length = stringIdx → firstSoundOK ctx shape →
      (∀ s ∈ st.shapes, firstSoundOK ctx s) →
      ∀ s ∈ (search ctx fuel stringIdx shape mn mx ho cov st).shapes,
        firstSoundOK ctx s := by
  have leaf : ∀ (shape : List Int) (st : SearchState), firstSoundOK ctx shape →
      (∀ s ∈ st.shapes, firstSoundOK ctx s) →
      ∀ s ∈ st.shapes ++ [shape], firstSoundOK ctx s := by
    intro shape st hshape hst s hs
    rcases List.mem_append.mp hs with hs | hs
    · exact hst s hs
    · have hs' : s = shape := by simpa using hs
      exact hs' ▸ hshape
  intro fuel
  induction fuel with
  | zero =>
    intro stringIdx shape mn mx ho cov st _ hshape hst
    show ∀ s ∈ (searchNoFuel ctx stringIdx shape mn mx ho cov st).shapes, _
    unfold searchNoFuel
    split_ifs
    · exact hst
    · exact leaf shape st hshape hst
    · exact hst
    · exact hst
  | succ fuel ih =>
    intro stringIdx shape mn mx ho cov st hlen hshape hst
    show ∀ s ∈ (searchGo ctx (search ctx fuel) stringIdx shape mn mx ho cov st).shapes, _
    unfold searchGo
    split_ifs
    · exact hst
    · exact leaf shape st hshape hst
    · exact hst
    · exact hst
    · refine foldl_preserve
        (fun (st' : SearchState) => ∀ s ∈ st'.shapes, firstSoundOK ctx s)
        _ _ ?_ hst
      intro st1 fret _ hP1
      apply searchStep_preserve ctx (search ctx fuel) stringIdx shape mn mx ho
        cov st1 fret
        (fun (st' : SearchState) => ∀ s ∈ st'.shapes, firstSoundOK ctx s) hP1
      intro nMin nMax nHo hguard
      exact ih (stringIdx + 1) (shape ++ [fret]) nMin nMax nHo
        (nextCovOf ctx stringIdx cov fret) st1 (by simp [hlen])
        (firstSoundOK_extend ctx hlen hshape hguard) hP1

theorem rawShapes_bass {rootVal : Int} {intervals : List Int}
    {bassNoteVal : Option Int} {nutTuning : List Int} {effMax : Int}
    {shape : List Int}
    (hs : shape ∈ rawShapesOf (mkCtx rootVal intervals bassNoteVal nutTuning effMax)) :
    ∀ k, shape.findIdx? (fun x => x != -1) = some k →
      jsMod (nutTuning.getD k 0 + shape.getD k 0) 12 =
        effectiveBassOf rootVal bassNoteVal := by
  have h := search_bass (mkCtx rootVal intervals bassNoteVal nutTuning effMax)
    numStrings 0 [] 999 (-999) false 0 ⟨0, []⟩ rfl
    (fun k hk => by simp at hk)
    (fun s hs => absurd hs (List.not_mem_nil s))
    shape hs
  exact h

/-- **C2** (bass correctness): for every voicing returned by `generateChords`
that has at least one non-muted string, the lowest-indexed non-muted string
(scanning from index 0, skipping leading mutes — the `findIdx?` hypothesis)
sounds exactly the effective bass pitch class, where the effective bass is
`bassNoteVal` when given and `rootVal` otherwise (`effectiveBassOf`). -/
theorem C2_bass (rootVal : Int) (intervals tuning : List Int) (capo : Int)
    (bassNoteVal : Option Int) (v : ChordVariation)
    (hv : v ∈ generateChords rootVal intervals tuning capo bassNoteVal)
    (k : Nat) (hk : v.frets.findIdx? (fun x => x != -1) = some k) :
    jsMod ((tuning.map (fun t => t + capo)).getD k 0 + v.frets.getD k 0) 12 =
      effectiveBassOf rootVal bassNoteVal := by
  obtain ⟨shape, hs, hveq⟩ := mem_generateChordsCore hv
  have hfr : v.frets = shape := by rw [hveq, mkVariation_frets]
  rw [hfr] at hk ⊢
  exact rawShapes_bass hs k hk

/-! ### Entry-range invariant and absence of input validation (claim C7) -/

theorem validFretsFor_ge {targets : List Int} {nutT effMax : Int} :
    ∀ f ∈ validFretsFor targets nutT effMax, -1 ≤ f := by
  intro f hf
  unfold validFretsFor at hf
  rcases List.mem_append.mp hf with hf | hf
  · rcases List.mem_append.mp hf with hf | hf
    · have : f = -1 := by simpa using hf
      omega
    · split_ifs at hf with h
      · have : f = 0 := by simpa using hf
        omega
      · exact absurd hf (List.not_mem_nil f)
  · obtain ⟨hmem, _⟩ := List.mem_filter.mp hf
    unfold fretRange at hmem
    obtain ⟨k, _, hk⟩ := List.mem_map.mp hmem
    have hk2 : (k : Int) + 1 = f := hk
    omega

theorem valids_getD_ge (targets nut : List Int) (effMax : Int) (s : Nat) :
    ∀ f ∈ (validFretsPerString targets nut effMax).getD s [], -1 ≤ f := by
  intro f hf
  by_cases hs : s < numStrings
  · have heq : (validFretsPerString targets nut effMax).getD s [] =
        validFretsFor targets (nut.getD s 0) effMax := by
      unfold validFretsPerString
      rw [List.getD_eq_getElem _ _ (by simpa [numStrings] using hs)]
      simp
    rw [heq] at hf
    exact validFretsFor_ge f hf
  · rw [List.getD_eq_default _ _ (by
      unfold validFretsPerString
      simpa [numStrings] using hs)] at hf
    exact absurd hf (List.not_mem_nil f)

theorem entriesGE_extend {shape : List Int} {fret : Int} (hsh : entriesGE shape)
    (hf : -1 ≤ fret) : entriesGE (shape ++ [fret]) := by
  intro k hk
  simp only [List.length_append, List.length_singleton] at hk
  by_cases hklt : k < shape.length
  · rw [List.getD_append _ _ _ _ hklt]
    exact hsh k hklt
  · have hke : k = shape.length := by omega
    subst hke
    rw [getD_concat_length]
    exact hf

theorem search_entries (ctx : SearchCtx)
    (hval : ∀ s, ∀ f ∈ ctx.valids.getD s [], -1 ≤ f) :
    ∀ (fuel stringIdx : Nat) (shape : List Int) (mn mx : Int) (ho : Bool)
      (cov : Nat) (st : SearchState),
      entriesGE shape → (∀ s ∈ st.shapes, entriesGE s) →
      ∀ s ∈ (search ctx fuel stringIdx shape mn mx ho cov st).shapes,
        entriesGE s := by
  have leaf : ∀ (shape : List Int) (st : SearchState), entriesGE shape →
      (∀ s ∈ st.shapes, entriesGE s) →
      ∀ s ∈ st.shapes ++ [shape], entriesGE s := by
    intro shape st hshape hst s hs
    rcases List.mem_append.mp hs with hs | hs
    · exact hst s hs
    · have hs' : s = shape := by simpa using hs
      exact hs' ▸ hshape
  intro fuel
  induction fuel with
  | zero =>
    intro stringIdx shape mn mx ho cov st hshape hst
    show ∀ s ∈ (searchNoFuel ctx stringIdx shape mn mx ho cov st).shapes, _
    unfold searchNoFuel
    split_ifs
    · exact hst
    · exact leaf shape st hshape hst
    · exact hst
    · exact hst
  | succ fuel ih =>
    intro stringIdx shape mn mx ho cov st hshape hst
    show ∀ s ∈ (searchGo ctx (search ctx fuel) stringIdx shape mn mx ho cov st).shapes, _
    unfold searchGo
    split_ifs
    · exact hst
    · exact leaf shape st hshape hst
    · exact hst
    · exact hst
    · refine foldl_preserve
        (fun (st' : SearchState) => ∀ s ∈ st'.shapes, entriesGE s) _ _ ?_ hst
      intro st1 fret hmem hP1
      apply searchStep_preserve ctx (search ctx fuel) stringIdx shape mn mx ho
        cov st1 fret
        (fun (st' : SearchState) => ∀ s ∈ st'.shapes, entriesGE s) hP1
      intro nMin nMax nHo _
      exact ih (stringIdx + 1) (shape ++ [fret]) nMin nMax nHo
        (nextCovOf ctx stringIdx cov fret) st1
        (entriesGE_extend hshape (hval stringIdx fret hmem)) hP1

theorem rawShapes_entries {rootVal : Int} {intervals : List Int}
    {bassNoteVal : Option Int} {nutTuning : List Int} {effMax : Int}
    {shape : List Int}
    (hs : shape ∈ rawShapesOf (mkCtx rootVal intervals bassNoteVal nutTuning effMax)) :
    entriesGE shape := by
  have h := search_entries (mkCtx rootVal intervals bassNoteVal nutTuning effMax)
    (fun s => valids_getD_ge _ _ _ s)
    numStrings 0 [] 999 (-999) false 0 ⟨0, []⟩
    (fun k hk => by simp at hk)
    (fun s hs => absurd hs (List.not_mem_nil s))
    shape hs
  exact h

/-! ### Nonempty target lists -/

theorem jsSetInsert_ne_nil (l : List Int) (x : Int) : jsSetInsert l x ≠ [] := by
  unfold jsSetInsert
  split_ifs with h
  · intro hnil
    subst hnil
    simp at h
  · simp

theorem foldl_jsSetInsert_ne_nil :
    ∀ (l acc : List Int), acc ≠ [] → l.foldl jsSetInsert acc ≠ []
  | [], _, h => h
  | x :: l, acc, _ =>
    foldl_jsSetInsert_ne_nil l (jsSetInsert acc x) (jsSetInsert_ne_nil acc x)

theorem targetNotesList_ne_nil {rootVal : Int} {intervals : List Int}
    (hiv : intervals ≠ []) (bassNoteVal : Option Int) :
    targetNotesList rootVal intervals bassNoteVal ≠ [] := by
  unfold targetNotesList
  cases bassNoteVal with
  | some b => exact jsSetInsert_ne_nil _ _
  | none =>
    cases intervals with
    | nil => exact absurd rfl hiv
    | cons i iv =>
      simp only [List.map_cons, List.foldl_cons]
      exact foldl_jsSetInsert_ne_nil _ _ (jsSetInsert_ne_nil [] _)

theorem mapped_nut_nonneg {tuning : List Int} {capo : Int}
    (htun : ∀ t ∈ tuning, 0 ≤ t) (hcapo : 0 ≤ capo) (k : Nat) :
    0 ≤ (tuning.map (fun t => t + capo)).getD k 0 := by
  by_cases hk : k < tuning.length
  · rw [List.getD_eq_getElem _ _ (by simpa using hk)]
    simp only [List.getElem_map]
    have := htun tuning[k] (List.getElem_mem hk)
    omega
  · rw [List.getD_eq_default _ _ (by simpa using hk)]

/-- **C7 amended**: `generateChords` performs no input validation: it is a
total function that silently computes an ordinary result list for invalid
inputs.  In particular, for an out-of-range root pitch class (`rootVal ≥ 12`,
no bass, nonempty intervals, a nonnegative tuning and capo) the bass-placement
rule can never match a sounded pitch class (always in `[0, 12)`), so the call
returns the empty list — indistinguishable from a normal "no voicing found"
outcome — rather than failing fast with a validation error. -/
theorem C7_no_validation (rootVal : Int) (intervals tuning : List Int)
    (capo : Int) (hroot : 12 ≤ rootVal) (hiv : intervals ≠ [])
    (htun : ∀ t ∈ tuning, 0 ≤ t) (hcapo : 0 ≤ capo) :
    generateChords rootVal intervals tuning capo none = [] := by
  rw [List.eq_nil_iff_forall_not_mem]
  intro v hv
  obtain ⟨shape, hs, _⟩ := mem_generateChordsCore hv
  obtain ⟨t, ht⟩ := List.exists_mem_of_ne_nil _ (targetNotesList_ne_nil hiv none)
  obtain ⟨k, hk, hkne, _⟩ := rawShapes_cover hs t ht
  have hex : ∃ x, x ∈ shape ∧ (x != -1) = true := by
    refine ⟨shape.getD k 0, ?_, by simpa using hkne⟩
    rw [List.getD_eq_getElem _ _ hk]
    exact List.getElem_mem hk
  have hfind := List.findIdx?_eq_some_of_exists hex
  obtain ⟨hklt, hpk, _⟩ := List.findIdx?_eq_some_iff_getElem.mp hfind
  have hbass := rawShapes_bass hs _ hfind
  have hent := rawShapes_entries hs
  have hge : -1 ≤ shape.getD (shape.findIdx (fun x => x != -1)) 0 :=
    hent _ hklt
  have hne' : shape.getD (shape.findIdx (fun x => x != -1)) 0 ≠ -1 := by
    rw [List.getD_eq_getElem _ _ hklt]
    simpa using hpk
  have hnut := mapped_nut_nonneg htun hcapo (shape.findIdx (fun x => x != -1))
  have hsum : 0 ≤ (tuning.map (fun t => t + capo)).getD
      (shape.findIdx (fun x => x != -1)) 0 +
      shape.getD (shape.findIdx (fun x => x != -1)) 0 := by omega
  have hlt12 := Int.tmod_lt_of_pos
    ((tuning.map (fun t => t + capo)).getD (shape.findIdx (fun x => x != -1)) 0 +
      shape.getD (shape.findIdx (fun x => x != -1)) 0)
    (show (0 : Int) < 12 by norm_num)
  have hge0 := Int.tmod_nonneg (12 : Int) hsum
  have hbass' : jsMod ((tuning.map (fun t => t + capo)).getD
      (shape.findIdx (fun x => x != -1)) 0 +
      shape.getD (shape.findIdx (fun x => x != -1)) 0) 12 = rootVal := hbass
  unfold jsMod at hbass'
  omega

/-! ### Concrete evaluation of Scenarios A and B (stage by stage) -/

set_option maxRecDepth 1000000 in
set_option maxHeartbeats 10000000 in
theorem scenarioA_raw :
    rawShapesOf (mkCtx 0 [0, 4, 7] none STANDARD_TUNING 15) = rawA := by decide

set_option maxRecDepth 1000000 in
set_option maxHeartbeats 10000000 in
theorem scenarioA_surv : removeSubsets rawA = survA := by decide

set_option maxRecDepth 1000000 in
set_option maxHeartbeats 10000000 in
theorem scenarioA_sorted :
    sortStable (fun a b => decide (cmpChords 0 STANDARD_TUNING a b ≤ 0)) survA =
      sortedA := by decide

set_option maxRecDepth 1000000 in
set_option maxHeartbeats 10000000 in
theorem scenarioA_vars : sortedA.map (mkVariation 0 STANDARD_TUNING) = varsA := by
  decide

theorem scenarioA_eval :
    generateChords 0 [0, 4, 7] STANDARD_TUNING 0 none = varsA := by
  have hmap : STANDARD_TUNING.map (fun t => t + 0) = STANDARD_TUNING := by decide
  have hmin : min maxFretSearch (maxPhysicalFret - 0) = 15 := by decide
  simp only [generateChords, generateChordsCore, hmap, hmin]
  rw [scenarioA_raw, scenarioA_surv, scenarioA_sorted, scenarioA_vars]

set_option maxRecDepth 1000000 in
set_option maxHeartbeats 10000000 in
theorem scenarioB_raw :
    rawShapesOf (mkCtx 0 [0, 4, 7] none [6, 11, 4, 9, 13, 6] 15) = rawB := by decide

set_option maxRecDepth 1000000 in
set_option maxHeartbeats 10000000 in
theorem scenarioB_surv : removeSubsets rawB = survB := by decide

set_option maxRecDepth 1000000 in
set_option maxHeartbeats 10000000 in
theorem scenarioB_sorted :
    sortStable (fun a b => decide (cmpChords 0 [6, 11, 4, 9, 13, 6] a b ≤ 0)) survB =
      sortedB := by decide

set_option maxRecDepth 1000000 in
set_option maxHeartbeats 10000000 in
theorem scenarioB_vars : sortedB.map (mkVariation 0 [6, 11, 4, 9, 13, 6]) = varsB := by
  decide

theorem scenarioB_eval :
    generateChords 0 [0, 4, 7] STANDARD_TUNING 2 none = varsB := by
  have hmap : STANDARD_TUNING.map (fun t => t + 2) = [6, 11, 4, 9, 13, 6] := by decide
  have hmin : min maxFretSearch (maxPhysicalFret - 2) = 15 := by decide
  simp only [generateChords, generateChordsCore, hmap, hmin]
  rw [scenarioB_raw, scenarioB_surv, scenarioB_sorted, scenarioB_vars]

/-- **C3** (Scenario A): for `rootVal = 0` (C), `intervals = [0,4,7]`,
standard tuning, `capo = 0`, no bass, the first element (index 0) of the list
returned by `generateChords` has frets `[-1, 3, 2, 0, 1, 0]` and its CAGED
shape label is `"C"`. -/
theorem C3_scenarioA :
    ((generateChords 0 [0, 4, 7] STANDARD_TUNING 0 none).headD
        (ChordVariation.mk [] 1 none)).frets = [-1, 3, 2, 0, 1, 0] ∧
    ((generateChords 0 [0, 4, 7] STANDARD_TUNING 0 none).headD
        (ChordVariation.mk [] 1 none)).cagedShape = some ("C") := by
  rw [scenarioA_eval]
  decide

/-- **C9 counterexample**: the claim "with capo=2 every returned voicing's
relative fret array is unchanged in shape from the capo=0 result" is false:
the Scenario A fingering `[-1,3,2,0,1,0]` is returned at capo 0 but no voicing
with those frets is returned at capo 2 (the capo-2 run instead returns the
same chord ten frets up, e.g. `[-1,13,12,10,11,10]`). -/
theorem C9_counterexample :
    [-1, 3, 2, 0, 1, 0] ∈
      (generateChords 0 [0, 4, 7] STANDARD_TUNING 0 none).map (fun v => v.frets) ∧
    [-1, 3, 2, 0, 1, 0] ∉
      (generateChords 0 [0, 4, 7] STANDARD_TUNING 2 none).map (fun v => v.frets) := by
  rw [scenarioA_eval, scenarioB_eval]
  decide

/-- **C9 amended**: the true capo relation is a *tuning shift*, not a fret
shift: for any `capo ≤ 7` (where the fret window `min(15, 22 − capo)` is the
full 15), `generateChords` with a capo behaves exactly as `generateChords`
at capo 0 with every open-string pitch raised by `capo`.  Shown frets stay
relative to the capo, so a voicing's implied absolute fret is
`shown fret + capo` and an open string sounds the pitch at the capo's
absolute fret (`tuning[i] + capo`). -/
theorem C9_capo_shift (rootVal : Int) (intervals tuning : List Int)
    (capo : Int) (bassNoteVal : Option Int) (hcapo : capo ≤ 7) :
    generateChords rootVal intervals tuning capo bassNoteVal =
      generateChords rootVal intervals (tuning.map (fun t => t + capo)) 0
        bassNoteVal := by
  unfold generateChords
  have h1 : (tuning.map (fun t => t + capo)).map (fun t => t + 0) =
      tuning.map (fun t => t + capo) := by
    simp
  have h2 : min maxFretSearch (maxPhysicalFret - capo) =
      min maxFretSearch (maxPhysicalFret - 0) := by
    unfold maxFretSearch maxPhysicalFret
    omega
  rw [h1, h2]

/-- Witness for C9's amended theorem at `capo = 2` (Scenario B): the capo-2
run equals the capo-0 run on the tuning raised two semitones. -/
theorem C9_witness :
    generateChords 0 [0, 4, 7] STANDARD_TUNING 2 none =
      generateChords 0 [0, 4, 7] [6, 11, 4, 9, 13, 6] 0 none := by
  have h := C9_capo_shift 0 [0, 4, 7] STANDARD_TUNING 2 none (by decide)
  rwa [(by decide : STANDARD_TUNING.map (fun t => t + 2) = [6, 11, 4, 9, 13, 6])]
    at h

/-- **C7 counterexample**: `generateChords` has no validation path: called
with the out-of-range root pitch class 99 it does not fail fast with a
validation error — it runs the ordinary search and returns an ordinary
(here empty) result list. -/
theorem C7_counterexample : generateChords 99 [0] STANDARD_TUNING 0 none = [] := by
  decide

/-- Witness for C7's amended theorem at the concrete invalid input
`root = 99`. -/
theorem C7_witness : generateChords 99 [0] STANDARD_TUNING 0 none = [] :=
  C7_no_validation 99 [0] STANDARD_TUNING 0 (by decide) (by decide) (by decide)
    (by decide)

/-- Witness for C1 at Scenario A's top voicing `[-1,3,2,0,1,0]`. -/
theorem C1_witness :
    (∀ i ∈ ([0, 4, 7] : List Int),
      soundsPC (STANDARD_TUNING.map (fun t => t + 0))
        (ChordVariation.mk [-1, 3, 2, 0, 1, 0] 1 (some ("C"))).frets
        (jsMod (0 + i) 12)) ∧
    (∀ b, (none : Option Int) = some b →
      soundsPC (STANDARD_TUNING.map (fun t => t + 0))
        (ChordVariation.mk [-1, 3, 2, 0, 1, 0] 1 (some ("C"))).frets
        (jsMod b 12)) :=
  C1_coverage 0 [0, 4, 7] STANDARD_TUNING 0 none
    (ChordVariation.mk [-1, 3, 2, 0, 1, 0] 1 (some ("C")))
    (by rw [scenarioA_eval]; decide)

/-- Witness for C2 at Scenario A's top voicing: its first sounded string
(index 1, fret 3) sounds the effective bass pitch class C. -/
theorem C2_witness :
    jsMod ((STANDARD_TUNING.map (fun t => t + 0)).getD 1 0 +
      (ChordVariation.mk [-1, 3, 2, 0, 1, 0] 1 (some ("C"))).frets.getD 1 0) 12 =
      effectiveBassOf 0 none :=
  C2_bass 0 [0, 4, 7] STANDARD_TUNING 0 none
    (ChordVariation.mk [-1, 3, 2, 0, 1, 0] 1 (some ("C")))
    (by rw [scenarioA_eval]; decide) 1 (by decide)

/-! ### Subset-removal completeness (claim C4's engine) -/

theorem contains_eq_false_of_not_mem {l : List Nat} {x : Nat} (h : x ∉ l) :
    l.contains x = false := by
  cases hc : l.contains x
  · rfl
  · exact absurd (List.elem_iff.mp hc) h

theorem not_mem_of_contains_eq_false {l : List Nat} {x : Nat}
    (h : l.contains x = false) : x ∉ l := fun hm => by
  have hc : l.contains x = true := List.elem_iff.mpr hm
  rw [hc] at h
  cases h

theorem isSubsetShape_refl (A : List Int) : isSubsetShape A A = true := by
  unfold isSubsetShape
  rw [List.all_eq_true]
  intro p hp
  have hgd : A[p.1]? = some p.2 := by
    have hpm : (p.1, p.2) ∈ A.enum := by simpa using hp
    exact List.mk_mem_enum_iff_getElem?.mp hpm
  have hAg : A.getD p.1 0 = p.2 := by
    rw [List.getD_eq_getElem?_getD, hgd]
    rfl
  show (p.2 == -1 || p.2 == A.getD p.1 0) = true
  rw [hAg]
  simp

theorem mem_domStep {l : List (List Int)} {removed : List Nat} {i x : Nat}
    (h : x ∈ removed) : x ∈ domStep l removed i := by
  unfold domStep
  split_ifs
  · exact h
  · exact List.mem_append.mpr (Or.inl h)
  · exact h

theorem mem_foldl_domStep {l : List (List Int)} {x : Nat} :
    ∀ (idxs removed : List Nat), x ∈ removed →
      x ∈ idxs.foldl (domStep l) removed
  | [], _, h => h
  | _ :: idxs, removed, h => mem_foldl_domStep idxs _ (mem_domStep h)

theorem domFold_removes {l : List (List Int)} {ia ib : Nat}
    (hbl : ib < l.length) (hne : ib ≠ ia)
    (hsub : isSubsetShape (l.getD ia []) (l.getD ib []) = true)
    (hnsub : isSubsetShape (l.getD ib []) (l.getD ia []) = false) :
    ∀ (idxs removed : List Nat), ia ∈ idxs →
      ia ∉ idxs.foldl (domStep l) removed →
      ib ∉ idxs.foldl (domStep l) removed → False
  | [], _, hmem, _, _ => absurd hmem (List.not_mem_nil ia)
  | k :: idxs, removed, hmem, hnotA, hnotB => by
    simp only [List.foldl_cons] at hnotA hnotB
    by_cases hk : k = ia
    · subst hk
      have hiaacc : k ∉ domStep l removed k := fun hc =>
        hnotA (mem_foldl_domStep idxs _ hc)
      have hibacc : ib ∉ domStep l removed k := fun hc =>
        hnotB (mem_foldl_domStep idxs _ hc)
      have hibrem : ib ∉ removed := fun hc => hibacc (mem_domStep hc)
      have hiarem : k ∉ removed := fun hc => hiaacc (mem_domStep hc)
      apply hiaacc
      unfold domStep
      rw [if_neg (by simpa using hiarem)]
      rw [if_pos ?_]
      · exact List.mem_append.mpr (Or.inr (List.mem_singleton.mpr rfl))
      · rw [List.any_eq_true]
        refine ⟨ib, List.mem_range.mpr hbl, ?_⟩
        unfold domCond
        simp only [Bool.and_eq_true, bne_iff_ne, Bool.not_eq_true']
        exact ⟨⟨hne, contains_eq_false_of_not_mem hibrem⟩, hsub, hnsub⟩
    · rcases List.mem_cons.mp hmem with h | h
      · exact absurd h (fun he => hk he.symm)
      · exact domFold_removes hbl hne hsub hnsub idxs (domStep l removed k) h
          hnotA hnotB

theorem computeRemoved_complete {l : List (List Int)} {ia ib : Nat}
    (hal : ia < l.length) (hbl : ib < l.length) (hne : ib ≠ ia)
    (hnota : (computeRemoved l).contains ia = false)
    (hnotb : (computeRemoved l).contains ib = false)
    (hsub : isSubsetShape (l.getD ia []) (l.getD ib []) = true)
    (hnsub : isSubsetShape (l.getD ib []) (l.getD ia []) = false) : False :=
  domFold_removes hbl hne hsub hnsub (List.range l.length) []
    (List.mem_range.mpr hal)
    (not_mem_of_contains_eq_false hnota)
    (not_mem_of_contains_eq_false hnotb)

/-- **C4** (non-domination): no voicing returned by a single `generateChords`
call has a sounded-fret pattern that is a strict subset of another returned
voicing's pattern: it never happens that `A` agrees with `B` on every string
where `A` is not muted (`isSubsetShape A.frets B.frets`) while `B` is not in
turn a subset of `A`. -/
theorem C4_nondomination (rootVal : Int) (intervals tuning : List Int)
    (capo : Int) (bassNoteVal : Option Int) (A B : ChordVariation)
    (hA : A ∈ generateChords rootVal intervals tuning capo bassNoteVal)
    (hB : B ∈ generateChords rootVal intervals tuning capo bassNoteVal) :
    ¬(isSubsetShape A.frets B.frets = true ∧
      isSubsetShape B.frets A.frets = false) := by
  rintro ⟨hsub, hnsub⟩
  simp only [generateChords, generateChordsCore] at hA hB
  rcases List.mem_map.mp hA with ⟨sa, hsa, rfl⟩
  rcases List.mem_map.mp hB with ⟨sb, hsb, rfl⟩
  simp only [mkVariation_frets] at hsub hnsub
  obtain ⟨ka, hka, hnra, hga⟩ := mem_removeSubsets_index (mem_sortStable hsa)
  obtain ⟨kb, hkb, hnrb, hgb⟩ := mem_removeSubsets_index (mem_sortStable hsb)
  by_cases hkk : kb = ka
  · subst hkk
    have heq : sa = sb := by rw [← hga, ← hgb]
    rw [heq, isSubsetShape_refl] at hnsub
    cases hnsub
  · apply computeRemoved_complete hka hkb hkk hnra hnrb
    · rwa [List.getD_eq_getElem _ _ hka, List.getD_eq_getElem _ _ hkb, hga, hgb]
    · rwa [List.getD_eq_getElem _ _ hkb, List.getD_eq_getElem _ _ hka, hgb, hga]

/-- Witness for C4 at two Scenario A voicings. -/
theorem C4_witness :
    ¬(isSubsetShape
        (ChordVariation.mk [-1, 3, 2, 0, 1, 0] 1 (some ("C"))).frets
        (ChordVariation.mk [-1, 15, 14, 12, 13, 12] 12 (some ("C"))).frets = true ∧
      isSubsetShape
        (ChordVariation.mk [-1, 15, 14, 12, 13, 12] 12 (some ("C"))).frets
        (ChordVariation.mk [-1, 3, 2, 0, 1, 0] 1 (some ("C"))).frets = false) :=
  C4_nondomination 0 [0, 4, 7] STANDARD_TUNING 0 none
    (ChordVariation.mk [-1, 3, 2, 0, 1, 0] 1 (some ("C")))
    (ChordVariation.mk [-1, 15, 14, 12, 13, 12] 12 (some ("C")))
    (by rw [scenarioA_eval]; decide) (by rw [scenarioA_eval]; decide)

/-! ### The ranking order (claim C5's engine) -/

theorem lexBase (ka kb : Int) :
    decide (ka - kb ≤ 0) =
      (if ka < kb then true else if kb < ka then false else true) := by
  rcases lt_trichotomy ka kb with h | h | h
  · rw [if_pos h]
    simp only [decide_eq_true_eq]
    omega
  · rw [if_neg (by omega), if_neg (by omega)]
    simp only [decide_eq_true_eq]
    omega
  · rw [if_neg (by omega), if_pos h]
    simp only [decide_eq_false_iff_not]
    omega

theorem lexStep (ka kb rest : Int) (restSpec : Bool)
    (hrest : decide (rest ≤ 0) = restSpec) :
    decide ((if ka ≠ kb then ka - kb else rest) ≤ 0) =
      (if ka < kb then true else if kb < ka then false else restSpec) := by
  rcases lt_trichotomy ka kb with h | h | h
  · rw [if_pos (by omega : ka ≠ kb), if_pos h]
    simp only [decide_eq_true_eq]
    omega
  · rw [if_neg (by omega : ¬ka ≠ kb), if_neg (by omega), if_neg (by omega)]
    exact hrest
  · rw [if_pos (by omega : ka ≠ kb), if_neg (by omega), if_pos h]
    simp only [decide_eq_false_iff_not]
    omega

theorem lexStepDesc (ka kb rest : Int) (restSpec : Bool)
    (hrest : decide (rest ≤ 0) = restSpec) :
    decide ((if ka ≠ kb then kb - ka else rest) ≤ 0) =
      (if -ka < -kb then true else if -kb < -ka then false else restSpec) := by
  rcases lt_trichotomy ka kb with h | h | h
  · rw [if_pos (by omega : ka ≠ kb), if_neg (by omega), if_pos (by omega)]
    simp only [decide_eq_false_iff_not]
    omega
  · rw [if_neg (by omega : ¬ka ≠ kb), if_neg (by omega), if_neg (by omega)]
    exact hrest
  · rw [if_pos (by omega : ka ≠ kb), if_pos (by omega)]
    simp only [decide_eq_true_eq]
    omega

theorem cmpChords_le_eq_specRankLe (rootVal : Int) (nut : List Int)
    (a b : List Int) :
    decide (cmpChords rootVal nut a b ≤ 0) = specRankLe rootVal nut a b := by
  have h7 := lexBase (getMuteScore a) (getMuteScore b)
  have h6 := lexStepDesc (soundingCount a) (soundingCount b) _ _ h7
  have h5 := lexStepDesc (getCAGEDScore a rootVal nut) (getCAGEDScore b rootVal nut)
    _ _ h6
  have h4 := lexStep (getSpan a) (getSpan b) _ _ h5
  have h3 := lexStep (getMinFret a) (getMinFret b) _ _ h4
  have h2 := lexStep (getFingerCount a) (getFingerCount b) _ _ h3
  unfold cmpChords specRankLe rankKeys isRootShapeMatch
  simp only [lexLe]
  by_cases hA : (identifyCAGEDShape a rootVal nut ==
      some (rootPlainName rootVal)) = true <;>
  by_cases hB : (identifyCAGEDShape b rootVal nut ==
      some (rootPlainName rootVal)) = true
  · rw [if_neg (fun hcon => hcon.2 hB), if_neg (fun hcon => hcon.1 hA)]
    rw [if_pos hA, if_pos hB]
    rw [if_neg (lt_irrefl (0 : Int)), if_neg (lt_irrefl (0 : Int))]
    exact h2
  · rw [if_pos ⟨hA, hB⟩]
    rw [if_pos hA, if_neg hB]
    rw [if_pos (by norm_num : (0 : Int) < 1)]
    decide
  · rw [if_neg (fun hcon => hA hcon.1), if_pos ⟨hA, hB⟩]
    rw [if_neg hA, if_pos hB]
    rw [if_neg (by norm_num : ¬(1 : Int) < 0), if_pos (by norm_num : (0 : Int) < 1)]
    decide
  · rw [if_neg (fun hcon => hA hcon.1), if_neg (fun hcon => hB hcon.2)]
    rw [if_neg hA, if_neg hB]
    rw [if_neg (lt_irrefl (1 : Int)), if_neg (lt_irrefl (1 : Int))]
    exact h2

/-- **C5** (ranking): the final ordering produced by `generateChords` is the
stable best-first sort of the dominance-filtered shapes by the spec's seven
keys in order, ties falling through: (1) exact shape label equals the root's
plain letter name, (2) fewer fretted notes, (3) lower minimum fretted
position, (4) smaller span, (5) higher fuzzy CAGED score, (6) more sounding
strings, (7) fewer inner mutes (`specRankLe` is the lexicographic order on
`rankKeys`; `sortStable` is the stable insertion sort that embeds ES2019's
stable `Array.prototype.sort`). -/
theorem C5_ranking (rootVal : Int) (intervals tuning : List Int) (capo : Int)
    (bassNoteVal : Option Int) :
    generateChords rootVal intervals tuning capo bassNoteVal =
      (sortStable (specRankLe rootVal (tuning.map (fun t => t + capo)))
        (removeSubsets (rawShapesOf (mkCtx rootVal intervals bassNoteVal
          (tuning.map (fun t => t + capo))
          (min maxFretSearch (maxPhysicalFret - capo)))))).map
        (mkVariation rootVal (tuning.map (fun t => t + capo))) := by
  unfold generateChords generateChordsCore
  have hle : (fun a b =>
      decide (cmpChords rootVal (tuning.map (fun t => t + capo)) a b ≤ 0)) =
      specRankLe rootVal (tuning.map (fun t => t + capo)) := by
    funext a b
    exact cmpChords_le_eq_specRankLe rootVal (tuning.map (fun t => t + capo)) a b
  rw [hle]

/-! ### Shape-classifier characterization (claim C6) -/

theorem patternMatches_iff_spec (shape : List Int) (rootVal : Int)
    (tuning : List Int) (p : ShapePattern) :
    patternMatches shape rootVal tuning p = true ↔
      shapeMatchesSpec shape rootVal tuning p := by
  unfold patternMatches shapeMatchesSpec
  dsimp only
  split_ifs with h1 h2
  · constructor
    · intro hfalse; simp at hfalse
    · rintro ⟨hne, _, _⟩
      exact absurd (by simpa using h1) hne
  · constructor
    · intro hfalse; simp at hfalse
    · rintro ⟨_, heq, _⟩
      exact absurd heq (by simpa using h2)
  · rw [List.all_eq_true]
    constructor
    · intro hall
      refine ⟨by simpa using h1, by simpa using h2, fun s hs => ?_⟩
      have hps : (match p.offsets.getD s none with
          | none => shape.getD s 0 == -1
          | some off => shape.getD s 0 ==
              shape.getD p.anchorString 0 + off) = true :=
        hall s (List.mem_range.mpr hs)
      constructor
      · intro off hoff
        rw [hoff] at hps
        simpa using hps
      · intro hoff
        rw [hoff] at hps
        simpa using hps
    · rintro ⟨_, _, hstr⟩
      intro s hs
      have hps := hstr s (List.mem_range.mp hs)
      show (match p.offsets.getD s none with
          | none => shape.getD s 0 == -1
          | some off => shape.getD s 0 ==
              shape.getD p.anchorString 0 + off) = true
      cases hoff : p.offsets.getD s none with
      | none => simpa using hps.2 hoff
      | some off => simpa using hps.1 off hoff

theorem find?_eq_some_first {α : Type} (q : α → Bool) (d : α) :
    ∀ (l : List α) (x : α), l.find? q = some x ↔
      ∃ i, i < l.length ∧ l.getD i d = x ∧ q x = true ∧
        ∀ j, j < i → q (l.getD j d) = false := by
  intro l
  induction l with
  | nil => intro x; simp
  | cons a as ih =>
    intro x
    cases hq : q a with
    | true =>
      rw [List.find?_cons_of_pos _ hq]
      constructor
      · rintro h
        have hax : a = x := Option.some_inj.mp h
        subst hax
        exact ⟨0, by simp, by simp, hq, fun j hj => absurd hj (Nat.not_lt_zero j)⟩
      · rintro ⟨i, hi, hget, hx, hfirst⟩
        cases i with
        | zero =>
          simp only [List.getD_cons_zero] at hget
          rw [hget]
        | succ n =>
          have h0 := hfirst 0 (Nat.succ_pos n)
          simp only [List.getD_cons_zero] at h0
          rw [hq] at h0
          cases h0
    | false =>
      rw [List.find?_cons_of_neg _ (by simp [hq])]
      rw [ih x]
      constructor
      · rintro ⟨i, hi, hget, hx, hfirst⟩
        refine ⟨i + 1, by simpa using hi, by simpa using hget, hx, ?_⟩
        intro j hj
        cases j with
        | zero => simpa using hq
        | succ m => simpa using hfirst m (by omega)
      · rintro ⟨i, hi, hget, hx, hfirst⟩
        cases i with
        | zero =>
          simp only [List.getD_cons_zero] at hget
          rw [← hget] at hx
          rw [hq] at hx
          cases hx
        | succ n =>
          refine ⟨n, by simpa using hi, by simpa using hget, hx, ?_⟩
          intro j hj
          simpa using hfirst (j + 1) (by omega)

/-- **C6** (shape classifier): for every voicing and every tuning whose
adjacent-string intervals are `(5,5,5,4,5)` mod 12, `identifyCAGEDShape`
returns label `L` iff some pattern of the library (tried in order E, G, A, C,
D) satisfies the spec's exact-match condition (`shapeMatchesSpec`: anchor
string sounded, anchor pitch class equals the chord root, every string equal
to `anchorFret + offset` when the offset is defined and muted when it is
"don't care"), the first such pattern has name `L`, and no earlier pattern
matches; and when the tuning's interval pattern is not `(5,5,5,4,5)` no shape
label is ever assigned. -/
theorem C6_classifier (shape : List Int) (rootVal : Int) (tuning : List Int) :
    (tuningIntervals tuning = [5, 5, 5, 4, 5] →
      ∀ L, identifyCAGEDShape shape rootVal tuning = some L ↔
        ∃ i, i < CAGED_PATTERNS.length ∧
          (CAGED_PATTERNS.getD i defaultPattern).name = L ∧
          shapeMatchesSpec shape rootVal tuning
            (CAGED_PATTERNS.getD i defaultPattern) ∧
          ∀ j, j < i → ¬shapeMatchesSpec shape rootVal tuning
            (CAGED_PATTERNS.getD j defaultPattern)) ∧
    (tuningIntervals tuning ≠ [5, 5, 5, 4, 5] →
      identifyCAGEDShape shape rootVal tuning = none) := by
  constructor
  · intro hstd L
    unfold identifyCAGEDShape
    rw [if_pos (by simpa [isStandardIntervals] using hstd)]
    rw [Option.map_eq_some']
    constructor
    · rintro ⟨p, hfind, hname⟩
      obtain ⟨i, hi, hget, hq, hfirst⟩ :=
        (find?_eq_some_first (patternMatches shape rootVal tuning)
          defaultPattern CAGED_PATTERNS p).mp hfind
      refine ⟨i, hi, by rw [hget]; exact hname, ?_, ?_⟩
      · rw [hget]
        exact (patternMatches_iff_spec shape rootVal tuning p).mp hq
      · intro j hj hspec
        have := hfirst j hj
        rw [(patternMatches_iff_spec shape rootVal tuning _).mpr hspec] at this
        cases this
    · rintro ⟨i, hi, hname, hspec, hfirst⟩
      refine ⟨CAGED_PATTERNS.getD i defaultPattern, ?_, hname⟩
      rw [find?_eq_some_first (patternMatches shape rootVal tuning)
        defaultPattern]
      refine ⟨i, hi, rfl,
        (patternMatches_iff_spec shape rootVal tuning _).mpr hspec, ?_⟩
      intro j hj
      cases hq : patternMatches shape rootVal tuning
          (CAGED_PATTERNS.getD j defaultPattern) with
      | false => rfl
      | true =>
        exact absurd ((patternMatches_iff_spec shape rootVal tuning _).mp hq)
          (hfirst j hj)
  · intro hnstd
    unfold identifyCAGEDShape
    rw [if_neg (by simpa [isStandardIntervals] using hnstd)]

/-- Witness for C6 at Scenario A's top voicing on the standard tuning: the
"C"-shape label is characterized by the first-match condition. -/
theorem C6_witness :
    ∃ i, i < CAGED_PATTERNS.length ∧
      (CAGED_PATTERNS.getD i defaultPattern).name = "C" ∧
      shapeMatchesSpec [-1, 3, 2, 0, 1, 0] 0 STANDARD_TUNING
        (CAGED_PATTERNS.getD i defaultPattern) ∧
      ∀ j, j < i → ¬shapeMatchesSpec [-1, 3, 2, 0, 1, 0] 0 STANDARD_TUNING
        (CAGED_PATTERNS.getD j defaultPattern) :=
  (((C6_classifier [-1, 3, 2, 0, 1, 0] 0 STANDARD_TUNING).1 (by decide)
    ("C")).mp (by decide))

/-! ### Empty target set (claim C10) -/

theorem validFretsFor_nil (nt m : Int) : validFretsFor [] nt m = [-1] := by
  unfold validFretsFor
  rw [if_neg (by simp), List.filter_eq_nil_iff.mpr (fun f _ => by simp)]
  rfl

theorem validsNil (nut : List Int) (m : Int) :
    validFretsPerString [] nut m =
      [[-1], [-1], [-1], [-1], [-1], [-1]] := by
  unfold validFretsPerString numStrings
  rw [show List.range 6 = [0, 1, 2, 3, 4, 5] from rfl]
  simp only [List.map_cons, List.map_nil, validFretsFor_nil]

theorem identify_allMuted (rootVal : Int) (tuning : List Int) :
    identifyCAGEDShape allMuted rootVal tuning = none := by
  unfold identifyCAGEDShape
  by_cases h : isStandardIntervals tuning = true
  · rw [if_pos h]; rfl
  · rw [if_neg h]

/-- **C10**: calling `generateChords` with an empty intervals list and no bass
gives an empty target set — the root is NOT implicitly added as interval 0 —
and the function returns exactly one voicing, with all six strings muted,
`baseFret` 1 and no shape label, for every root, tuning and capo. -/
theorem C10_empty_intervals (rootVal capo : Int) (tuning : List Int) :
    targetNotesList rootVal [] none = [] ∧
    generateChords rootVal [] tuning capo none =
      [⟨allMuted, 1, none⟩] := by
  refine ⟨rfl, ?_⟩
  unfold generateChords generateChordsCore
  dsimp only
  have hctx : mkCtx rootVal [] none (tuning.map (fun t => t + capo))
      (min maxFretSearch (maxPhysicalFret - capo)) =
      ⟨tuning.map (fun t => t + capo), [[-1], [-1], [-1], [-1], [-1], [-1]],
        [], rootVal, 0⟩ := by
    unfold mkCtx
    dsimp only
    rw [show targetNotesList rootVal [] none = ([] : List Int) from rfl]
    rw [validsNil]
    rfl
  rw [hctx]
  have hraw : rawShapesOf (⟨tuning.map (fun t => t + capo),
      [[-1], [-1], [-1], [-1], [-1], [-1]], [], rootVal, 0⟩ : SearchCtx) =
      [allMuted] := rfl
  rw [hraw]
  have hrem : removeSubsets [allMuted] = [allMuted] := rfl
  rw [hrem]
  have hsort : ∀ le : List Int → List Int → Bool,
      sortStable le [allMuted] = [allMuted] := fun le => rfl
  rw [hsort]
  simp only [List.map_cons, List.map_nil]
  unfold mkVariation
  dsimp only
  rw [identify_allMuted]
  rfl

end ChordEngine
